import Mathlib

/-!
# sdbot: `message.go`

A shallow embedding of `parseMessage`, `NewMessage`, `Message.Match` and
`Message.Private`, followed by theorems about them.

Conventions of the embedding.

* A Go `string` is its sequence of bytes, `List Nat` (every byte is `< 256`).
* A Go run-time panic, and the fatal exit of `CheckErr`, are values of `Fault`;
  a function that can panic returns `Except Fault _`.
* The bot (`*Bot`) is only ever handed to the two registries, so it is an
  abstract state `σ` that `FindRoomEnsured` and `FindUserEnsured` read and
  update; both are fields of `Env`, since their code is in another file.
* Pointers returned by the registries are `Option Nat`: `none` is `nil`,
  `some a` is the address `a`.
* Go maps are references: the inner maps of `Matches` are map objects at
  addresses, and two event names may hold the same one.
-/

namespace Sdbot

/-- A Go string, as its bytes. -/
abbrev GoString := List Nat

/-- The bytes of an ASCII literal. -/
def str (s : String) : GoString := s.toList.map Char.toNat

/-- What stops a call from returning. -/
inductive Fault where
  /-- Run-time panic: index out of range. -/
  | indexOutOfRange
  /-- Run-time panic: slice bounds out of range. -/
  | sliceBoundsOutOfRange
  /-- Run-time panic: assignment to entry in nil map. -/
  | assignmentToNilMap
  /-- The process was ended by `CheckErr`. -/
  | fatal
  deriving DecidableEq, Repr

/-- A `*User` value: `none` is nil. -/
abbrev UserPtr := Option Nat

/-- A `*Room` value. -/
inductive RoomPtr where
  /-- The value of `&Room{}`: a pointer to a newly allocated zero `Room`. -/
  | fresh
  /-- The value returned by `FindRoomEnsured` (`none` is nil). -/
  | ensured (p : Option Nat)
  deriving DecidableEq, Repr

/-- A value of the interface type `Target`: its dynamic type with its value. -/
inductive Target where
  | ofUser (u : UserPtr)
  | ofRoom (r : RoomPtr)
  deriving DecidableEq, Repr

/-- What `parseMessage` uses and `message.go` does not define. -/
structure Env (σ : Type) where
  /-- The non-ASCII path of `strings.ToLower`, `Map(unicode.ToLower, s)`. -/
  unicodeLower : GoString → GoString
  /-- The room registry: `FindRoomEnsured(name, b)`. -/
  FindRoomEnsured : GoString → σ → Option Nat × σ
  /-- The user registry: `FindUserEnsured(name, b)`. -/
  FindUserEnsured : GoString → σ → Option Nat × σ

/-! ## Library functions -/

/-- Put `c` in front of the first piece of a split. -/
def consHead (c : Nat) : List GoString → List GoString
  | [] => [[c]]
  | p :: ps => (c :: p) :: ps

/-- The Go `strings.Split(s, sep)` for a separator of one byte. -/
def Split (s : GoString) (sep : Nat) : List GoString :=
  match s with
  | [] => [[]]
  | c :: cs => if c = sep then [] :: Split cs sep else consHead c (Split cs sep)

/-- The Go `strings.Join(elems, sep)` for a separator of one byte. -/
def Join (elems : List GoString) (sep : Nat) : GoString :=
  match elems with
  | [] => []
  | [e] => e
  | e :: es => e ++ sep :: Join es sep

/-- The Go `strings.Contains(s, substr)`. -/
def Contains (s substr : GoString) : Bool :=
  s.tails.any (fun t => substr.isPrefixOf t)

/-- The ASCII lower-casing of one byte. -/
def lowerByte (c : Nat) : Nat := if 65 ≤ c ∧ c ≤ 90 then c + 32 else c

/-- The Go `strings.ToLower(s)`: bytewise on an ASCII string, the Unicode
mapping otherwise. -/
def ToLower (unicodeLower : GoString → GoString) (s : GoString) : GoString :=
  if s.all (fun c => decide (c < 128)) then s.map lowerByte else unicodeLower s

/-- The value of a digit string, base 10. -/
def digitsValue (ds : GoString) : Nat := ds.foldl (fun n c => n * 10 + (c - 48)) 0

/-- The unsigned part of `strconv.Atoi`: non-empty, digits only. -/
def atoiDigits (ds : GoString) : Option Nat :=
  if ds ≠ [] ∧ ds.all (fun c => decide (48 ≤ c ∧ c ≤ 57)) then some (digitsValue ds) else none

/-- The Go `strconv.Atoi(s)` with a 64-bit `int`; `none` when `err != nil`
(syntax or range). -/
def Atoi (s : GoString) : Option Int :=
  match s with
  | [] => none
  | c :: cs =>
    if c = 45 then
      match atoiDigits cs with
      | some n => if n ≤ 2 ^ 63 then some (-(n : Int)) else none
      | none => none
    else
      match atoiDigits (if c = 43 then cs else c :: cs) with
      | some n => if n < 2 ^ 63 then some (n : Int) else none
      | none => none

/-- The Go conversion `string(b)` of a byte `b`: the UTF-8 encoding of the
code point `b`. -/
def byteToString (b : Nat) : GoString :=
  if b < 128 then [b] else [192 + b / 64, 128 + b % 64]

/-- Modelled from the spec: `CheckErr`, defined in another file of the
repository; a non-nil error is "a fatal condition in the legacy behavior",
so the call returns only when `err` is nil. -/
def CheckErr (err : Bool) : Except Fault Unit :=
  if err then .error .fatal else .ok ()

/-! ## `parseMessage` -/

/-- The eight values `parseMessage` returns. -/
structure Parsed where
  Command : GoString
  Params : List GoString
  Timestamp : Int
  Room : RoomPtr
  User : UserPtr
  Auth : GoString
  Target : Target
  Message : GoString
  deriving DecidableEq, Repr

/-- Lines 53-58: the command is the field after the first vertical bar. -/
def parseCommand (vertbarDelimited : List GoString) : GoString :=
  if vertbarDelimited.length < 2 then str "none" else vertbarDelimited.getD 1 []

/-- Lines 60-69: the parameters following a command. -/
def parseParams (command : GoString) (vertbarDelimited : List GoString) : List GoString :=
  if command = [] then []
  else if vertbarDelimited.length > 2 then vertbarDelimited.drop 2 else []

/-- Lines 71-78: the timestamp of a chat event. -/
def parseTimestamp (command : GoString) (params : List GoString) : Except Fault Int :=
  if Contains command (str ":") then
    match params with
    | [] => .error .indexOutOfRange
    | p :: _ =>
      match CheckErr (Atoi p).isNone with
      | .error f => .error f
      | .ok _ => .ok ((Atoi p).getD 0)
  else .ok 0

/-- Lines 80-89: the room, when the first line starts with `>`. -/
def parseRoom {σ : Type} (env : Env σ) (newlineDelimited : List GoString) (b : σ) :
    Except Fault (RoomPtr × σ) :=
  match newlineDelimited with
  | [] => .error .indexOutOfRange
  | [] :: _ => .ok (.fresh, b)
  | (c :: name) :: _ =>
    if byteToString c = str ">" then
      .ok (.ensured (env.FindRoomEnsured name b).1, (env.FindRoomEnsured name b).2)
    else .ok (.fresh, b)

/-- The body of the cases of lines 94-95 and 105-106 for the field at
index `i`: `auth = string(field[0])`, `user = FindUserEnsured(field[1:], b)`. -/
def identityAt {σ : Type} (env : Env σ) (vertbarDelimited : List GoString) (i : Nat) (b : σ) :
    Except Fault (GoString × UserPtr × σ) :=
  match vertbarDelimited.get? i with
  | none => .error .indexOutOfRange
  | some [] => .error .indexOutOfRange
  | some (c :: name) =>
    .ok (byteToString c, (env.FindUserEnsured name b).1, (env.FindUserEnsured name b).2)

/-- Lines 91-107: the user sending a command, and their auth level. -/
def parseIdentity {σ : Type} (env : Env σ) (command : GoString)
    (vertbarDelimited : List GoString) (b : σ) : Except Fault (GoString × UserPtr × σ) :=
  let lower := ToLower env.unicodeLower command
  if lower = str "c:" then identityAt env vertbarDelimited 3 b
  else if lower = str "c" ∨ lower = str "j" ∨ lower = str "l" ∨ lower = str "n"
      ∨ lower = str "pm" then identityAt env vertbarDelimited 2 b
  else .ok ([], none, b)

/-- Lines 109-119: the message text. -/
def parseBody (unicodeLower : GoString → GoString) (command : GoString)
    (newlineDelimited vertbarDelimited : List GoString) : Except Fault GoString :=
  if command = [] then .ok []
  else
    let lower := ToLower unicodeLower command
    if lower = str "c:" ∨ lower = str "pm" then
      if 4 ≤ vertbarDelimited.length then .ok (Join (vertbarDelimited.drop 4) 124)
      else .error .sliceBoundsOutOfRange
    else if lower = str "none" then
      match newlineDelimited.getLast? with
      | some line => .ok line
      | none => .error .indexOutOfRange
    else .ok []

/-- Lines 121-125: the target of a reply. -/
def parseTarget (unicodeLower : GoString → GoString) (command : GoString)
    (room : RoomPtr) (user : UserPtr) : Target :=
  if ToLower unicodeLower command = str "pm" then .ofUser user else .ofRoom room

/-- The Go `parseMessage(s, b)`: the returned values with the bot state after
the registry calls, or the fault that stopped it. -/
def parseMessage {σ : Type} (env : Env σ) (s : GoString) (b : σ) : Except Fault (Parsed × σ) :=
  let newlineDelimited := Split s 10
  let vertbarDelimited := Split s 124
  let command := parseCommand vertbarDelimited
  let params := parseParams command vertbarDelimited
  match parseTimestamp command params with
  | .error f => .error f
  | .ok timestamp =>
    match parseRoom env newlineDelimited b with
    | .error f => .error f
    | .ok (room, b1) =>
      match parseIdentity env command vertbarDelimited b1 with
      | .error f => .error f
      | .ok (auth, user, b2) =>
        match parseBody env.unicodeLower command newlineDelimited vertbarDelimited with
        | .error f => .error f
        | .ok message =>
          .ok (⟨command, params, timestamp, room, user, auth,
            parseTarget env.unicodeLower command room user, message⟩, b2)

/-! ## `Message` -/

/-- The map `Matches`, of type `map[string]map[*regexp.Regexp][]string`. A Go
map value is a reference to a map object, so the outer map gives, per event
name, the address of an inner map object (`none` when the key is absent or
holds nil, which both read as a nil map), and `mapAt` gives the content of the
map object at each address: from a pattern to the stored groups (`none` when
absent, which reads as a nil slice). Two event names may hold the same
address. -/
structure MatchCache (P : Type) where
  refOf : GoString → Option Nat
  mapAt : Nat → P → Option (List GoString)

/-- The cache after the write `inner[r] = groups` into the map object at the
address `a`; every event name that holds `a` sees it. -/
def MatchCache.put {P : Type} [DecidableEq P] (c : MatchCache P) (a : Nat) (r : P)
    (groups : List GoString) : MatchCache P :=
  { refOf := c.refOf
    mapAt := fun a1 q => if a1 = a ∧ q = r then some groups else c.mapAt a1 q }

set_option linter.dupNamespace false in
/-- The Go struct `Message`, over the type `P` of compiled patterns
(`*regexp.Regexp`). The field `Bot` is the state `σ`, passed alongside. -/
structure Message (P : Type) where
  Time : Nat
  Command : GoString
  Params : List GoString
  Timestamp : Int
  Room : RoomPtr
  User : UserPtr
  Auth : GoString
  Target : Target
  Message : GoString
  Matches : MatchCache P

/-- The Go `NewMessage(s, bot)`; `now` is the value of `time.Now()`. -/
def NewMessage {σ : Type} (P : Type) (env : Env σ) (now : Nat) (s : GoString) (bot : σ) :
    Except Fault (Message P × σ) :=
  match parseMessage env s bot with
  | .error f => .error f
  | .ok (p, bot1) =>
    .ok (⟨now, p.Command, p.Params, p.Timestamp, p.Room, p.User, p.Auth, p.Target, p.Message,
      ⟨fun _ => none, fun _ _ => none⟩⟩, bot1)

/-- The read `m.Matches[event][r]`: reading a missing key or a nil map gives
the zero value. -/
def Message.cached {P : Type} (m : Sdbot.Message P) (event : GoString) (r : P) :
    Option (List GoString) :=
  match m.Matches.refOf event with
  | none => none
  | some a => m.Matches.mapAt a r

/-- The write `m.Matches[event][r] = groups`: panics when the inner map is
nil. -/
def Message.store {P : Type} [DecidableEq P] (m : Sdbot.Message P) (event : GoString) (r : P)
    (groups : List GoString) : Except Fault (Sdbot.Message P) :=
  match m.Matches.refOf event with
  | none => .error .assignmentToNilMap
  | some a => .ok { m with Matches := m.Matches.put a r groups }

/-- The Go `(m *Message) Match(r, event)`; `find r body` is
`r.FindStringSubmatch(body)`, `none` for nil. Returns the result with the
message after the call. -/
def Message.Match {P : Type} [DecidableEq P] (find : P → GoString → Option (List GoString))
    (m : Sdbot.Message P) (r : P) (event : GoString) : Except Fault (Bool × Sdbot.Message P) :=
  match m.cached event r with
  | none =>
    match find r m.Message with
    | some groups =>
      match m.store event r groups with
      | .error f => .error f
      | .ok m1 => .ok (true, m1)
    | none => .ok (false, m)
  | some _ => .ok (false, m)

/-- The Go `(m *Message) Private()`: `m.User == m.Target`, equal when the
interface value has dynamic type `*User` and holds the same pointer. -/
def Message.Private {P : Type} (m : Sdbot.Message P) : Bool :=
  match m.Target with
  | .ofUser u => decide (m.User = u)
  | .ofRoom _ => false

/-! ## A sample environment, used to evaluate the definitions -/

/-- A registry that keeps the list of names seen so far; the address of a
name is its position plus one. -/
def sampleEnsure (name : GoString) (names : List GoString) : Option Nat × List GoString :=
  if names.indexOf name < names.length then (some (names.indexOf name + 1), names)
  else (some (names.length + 1), names ++ [name])

/-- Rooms and users share one list of names here. -/
def sampleEnv : Env (List GoString) where
  unicodeLower := id
  FindRoomEnsured := sampleEnsure
  FindUserEnsured := sampleEnsure

/-- A pattern is the literal it searches for; the groups are the literal. -/
def sampleFind (r : GoString) (body : GoString) : Option (List GoString) :=
  if Contains body r then some [r] else none

/-- Two successive calls `Match(r, event)` on the same message: both results
and the message after the second call. -/
def Message.MatchTwice {P : Type} [DecidableEq P]
    (find : P → GoString → Option (List GoString)) (m : Sdbot.Message P) (r : P)
    (event : GoString) : Except Fault (Bool × Bool × Sdbot.Message P) :=
  match m.Match find r event with
  | .error f => .error f
  | .ok (first, m1) =>
    match m1.Match find r event with
    | .error f => .error f
    | .ok (second, m2) => .ok (first, second, m2)

/-- The frame `|j|☆Alice`: the identity field starts with the three bytes
E2 98 86 of the character U+2606. -/
def starFrame : GoString := str "|j|" ++ [226, 152, 134] ++ str "Alice"

/-! ## Registry calls and access faults -/

/-- One call of a registry, with the name it was given. -/
inductive Call where
  /-- A call `FindRoomEnsured(name, b)`. -/
  | room (name : GoString)
  /-- A call `FindUserEnsured(name, b)`. -/
  | user (name : GoString)
  deriving DecidableEq, Repr

/-- The environment `env` with a log: each registry call does what it does
in `env` and appends itself to the list of calls made so far. -/
def withLog {σ : Type} (env : Env σ) : Env (σ × List Call) where
  unicodeLower := env.unicodeLower
  FindRoomEnsured := fun name st =>
    ((env.FindRoomEnsured name st.1).1, ((env.FindRoomEnsured name st.1).2, st.2 ++ [.room name]))
  FindUserEnsured := fun name st =>
    ((env.FindUserEnsured name st.1).1, ((env.FindUserEnsured name st.1).2, st.2 ++ [.user name]))

/-- The names of the room-registry calls in a log, in order. -/
def roomCalls (log : List Call) : List GoString :=
  log.filterMap (fun c => match c with
    | .room name => some name
    | .user _ => none)

/-- The names of the user-registry calls in a log, in order. -/
def userCalls (log : List Call) : List GoString :=
  log.filterMap (fun c => match c with
    | .room _ => none
    | .user name => some name)

/-- Whether a step ended in a run-time panic of an index or slice access. -/
def isAccessPanic {α : Type} (x : Except Fault α) : Bool :=
  match x with
  | .error .indexOutOfRange => true
  | .error .sliceBoundsOutOfRange => true
  | _ => false

/-- Whether every index and slice access of `parseMessage` on the frame `s`
is in range: `params[0]` (line 74), `newlineDelimited[0]` (lines 81-85),
the identity field and its first byte (lines 94, 105), `vertbarDelimited[4:]`
and the last line (lines 115, 117). Each block is looked at on its own, so
this does not depend on whether `CheckErr` returns. -/
def accessesInRange {σ : Type} (env : Env σ) (s : GoString) (b : σ) : Bool :=
  let newlineDelimited := Split s 10
  let vertbarDelimited := Split s 124
  let command := parseCommand vertbarDelimited
  let params := parseParams command vertbarDelimited
  !isAccessPanic (parseTimestamp command params) &&
  !isAccessPanic (parseRoom env newlineDelimited b) &&
  !isAccessPanic (parseIdentity env command vertbarDelimited b) &&
  !isAccessPanic (parseBody env.unicodeLower command newlineDelimited vertbarDelimited)

/-- The message after `m.Matches[event] = make(...)`: the event name holds a
new, empty map object, here at the address `a`, which no other event name may
hold yet. -/
def Message.withEvent {P : Type} (m : Sdbot.Message P) (event : GoString) (a : Nat) :
    Sdbot.Message P :=
  { m with Matches :=
      { refOf := fun e => if e = event then some a else m.Matches.refOf e
        mapAt := fun a1 q => if a1 = a then none else m.Matches.mapAt a1 q } }

/-- The event name `e` holds the inner map object that `event` holds
(`m.Matches[e]` and `m.Matches[event]` are the same non-nil map). -/
def Message.sharesMap {P : Type} (m : Sdbot.Message P) (e event : GoString) : Prop :=
  ∃ a, m.Matches.refOf event = some a ∧ m.Matches.refOf e = some a

/-- The message after `m.Matches[other] = m.Matches[event]`: both event names
hold the same map object. -/
def Message.shareEvent {P : Type} (m : Sdbot.Message P) (other event : GoString) :
    Sdbot.Message P :=
  { m with Matches :=
      { refOf := fun e => if e = other then m.Matches.refOf event else m.Matches.refOf e
        mapAt := m.Matches.mapAt } }

/-- The safety precondition of `parseMessage` in the words of the claim, to
be compared with `accessesInRange`: (1) a command with a colon needs 3 fields;
(2) `"c:"` needs 4 fields and a non-empty `fields[3]`; (3) `"c"`, `"j"`, `"l"`,
`"n"`, `"pm"` need 3 fields and a non-empty `fields[2]`; (4) `"pm"` needs 4
fields. -/
def safetyPrecondition {σ : Type} (env : Env σ) (s : GoString) : Prop :=
  (58 ∈ parseCommand (Split s 124) → 3 ≤ (Split s 124).length) ∧
  (ToLower env.unicodeLower (parseCommand (Split s 124)) = str "c:" →
    4 ≤ (Split s 124).length ∧ (Split s 124).getD 3 [] ≠ []) ∧
  (ToLower env.unicodeLower (parseCommand (Split s 124)) = str "c" ∨
    ToLower env.unicodeLower (parseCommand (Split s 124)) = str "j" ∨
    ToLower env.unicodeLower (parseCommand (Split s 124)) = str "l" ∨
    ToLower env.unicodeLower (parseCommand (Split s 124)) = str "n" ∨
    ToLower env.unicodeLower (parseCommand (Split s 124)) = str "pm" →
    3 ≤ (Split s 124).length ∧ (Split s 124).getD 2 [] ≠ []) ∧
  (ToLower env.unicodeLower (parseCommand (Split s 124)) = str "pm" →
    4 ≤ (Split s 124).length)

instance {σ : Type} (env : Env σ) (s : GoString) : Decidable (safetyPrecondition env s) := by
  unfold safetyPrecondition
  infer_instance

/-! ## Lemmas on the library functions -/

theorem Split_ne_nil (s : GoString) (sep : Nat) : Split s sep ≠ [] := by
  cases s with
  | nil => simp [Split]
  | cons c cs =>
    unfold Split
    split
    · simp
    · cases Split cs sep <;> simp [consHead]

theorem Split_length_pos (s : GoString) (sep : Nat) : 0 < (Split s sep).length :=
  List.length_pos.mpr (Split_ne_nil s sep)

theorem Split_of_not_mem (s : GoString) (sep : Nat) (h : sep ∉ s) : Split s sep = [s] := by
  induction s with
  | nil => simp [Split]
  | cons c cs ih =>
    have hc : c ≠ sep := fun e => h (by simp [e])
    have hcs : sep ∉ cs := fun e => h (by simp [e])
    simp [Split, hc, ih hcs, consHead]

theorem Split_not_mem (s : GoString) (sep : Nat) : ∀ e ∈ Split s sep, sep ∉ e := by
  induction s with
  | nil => simp [Split]
  | cons c cs ih =>
    unfold Split
    split
    · intro e he
      rcases List.mem_cons.mp he with rfl | he
      · simp
      · exact ih e he
    · rename_i hc
      cases hsp : Split cs sep with
      | nil => exact absurd hsp (Split_ne_nil cs sep)
      | cons p ps =>
        rw [hsp] at ih
        intro e he
        simp only [consHead, List.mem_cons] at he
        rcases he with rfl | he
        · intro hmem
          rcases List.mem_cons.mp hmem with e1 | e1
          · exact hc e1.symm
          · exact ih p (by simp) e1
        · exact ih e (by simp [he])

theorem Split_append_sep (e t : GoString) (sep : Nat) (h : sep ∉ e) :
    Split (e ++ sep :: t) sep = e :: Split t sep := by
  induction e with
  | nil => simp [Split]
  | cons c cs ih =>
    have hc : c ≠ sep := fun e => h (by simp [e])
    have hcs : sep ∉ cs := fun e => h (by simp [e])
    simp [Split, hc, ih hcs, consHead]

theorem Split_Join (l : List GoString) (sep : Nat) (hne : l ≠ [])
    (h : ∀ e ∈ l, sep ∉ e) : Split (Join l sep) sep = l := by
  induction l with
  | nil => exact absurd rfl hne
  | cons e es ih =>
    cases es with
    | nil => simpa [Join] using Split_of_not_mem e sep (h e (by simp))
    | cons e2 es2 =>
      have h1 : sep ∉ e := h e (by simp)
      have h2 : ∀ x ∈ e2 :: es2, sep ∉ x := fun x hx => h x (List.mem_cons_of_mem _ hx)
      simp only [Join]
      rw [Split_append_sep e _ sep h1, ih (by simp) h2]

theorem ToLower_nil (u : GoString → GoString) : ToLower u [] = [] := by
  simp [ToLower]

theorem ToLower_none (u : GoString → GoString) : ToLower u (str "none") = str "none" := by
  rfl

/-! ## What a completed `parseMessage` returned -/

theorem parseMessage_ok {σ : Type} (env : Env σ) (s : GoString) (b b' : σ) (r : Parsed)
    (h : parseMessage env s b = .ok (r, b')) :
    r.Command = parseCommand (Split s 124) ∧
    r.Params = parseParams r.Command (Split s 124) ∧
    parseTimestamp r.Command r.Params = .ok r.Timestamp ∧
    (∃ b1, parseRoom env (Split s 10) b = .ok (r.Room, b1) ∧
      parseIdentity env r.Command (Split s 124) b1 = .ok (r.Auth, r.User, b')) ∧
    parseBody env.unicodeLower r.Command (Split s 10) (Split s 124) = .ok r.Message ∧
    r.Target = parseTarget env.unicodeLower r.Command r.Room r.User := by
  unfold parseMessage at h
  simp only [] at h
  split at h
  · exact absurd h (by simp)
  · rename_i ts hts
    split at h
    · exact absurd h (by simp)
    · rename_i room b1 hroom
      split at h
      · exact absurd h (by simp)
      · rename_i auth user b2 hid
        split at h
        · exact absurd h (by simp)
        · rename_i msg hmsg
          simp only [Except.ok.injEq, Prod.mk.injEq] at h
          obtain ⟨hr, hb⟩ := h
          subst hr
          subst hb
          exact ⟨rfl, rfl, hts, ⟨b1, hroom, hid⟩, hmsg, rfl⟩

theorem parseRoom_Split_ok {σ : Type} (env : Env σ) (s : GoString) (b : σ) :
    ∃ room b1, parseRoom env (Split s 10) b = .ok (room, b1) := by
  cases h : Split s 10 with
  | nil => exact absurd h (Split_ne_nil s 10)
  | cons l ls =>
    cases l with
    | nil => exact ⟨_, _, rfl⟩
    | cons c name =>
      unfold parseRoom
      simp only []
      split
      · exact ⟨_, _, rfl⟩
      · exact ⟨_, _, rfl⟩

theorem getLast?_Split_isSome (s : GoString) (sep : Nat) :
    ∃ line, (Split s sep).getLast? = some line := by
  cases h : Split s sep with
  | nil => exact absurd h (Split_ne_nil s sep)
  | cons l ls => exact ⟨_, List.getLast?_eq_getLast _ (by simp)⟩

/-- A frame without a vertical bar is parsed to the end: the command is
`"none"`, there are no parameters, no user, and the body is the last line. -/
theorem parseMessage_no_bar {σ : Type} (env : Env σ) (s : GoString) (b : σ) (h : 124 ∉ s) :
    ∃ room b1 line, parseRoom env (Split s 10) b = .ok (room, b1) ∧
      (Split s 10).getLast? = some line ∧
      parseMessage env s b =
        .ok (⟨str "none", [], 0, room, none, [], .ofRoom room, line⟩, b1) := by
  obtain ⟨room, b1, hroom⟩ := parseRoom_Split_ok env s b
  obtain ⟨line, hline⟩ := getLast?_Split_isSome s 10
  refine ⟨room, b1, line, hroom, hline, ?_⟩
  have hc : parseCommand (Split s 124) = str "none" := by
    simp [parseCommand, Split_of_not_mem s 124 h]
  have hp : parseParams (str "none") (Split s 124) = [] := by
    simp [parseParams, Split_of_not_mem s 124 h]
  have ht : parseTimestamp (str "none") [] = .ok 0 := by rfl
  have hi : parseIdentity env (str "none") (Split s 124) b1 = .ok ([], none, b1) := by
    unfold parseIdentity
    simp only [ToLower_none]
    rfl
  have hb : parseBody env.unicodeLower (str "none") (Split s 10) (Split s 124) = .ok line := by
    unfold parseBody
    simp only [ToLower_none, hline]
    rfl
  have hg : parseTarget env.unicodeLower (str "none") room none = .ofRoom room := by
    unfold parseTarget
    simp only [ToLower_none]
    rfl
  unfold parseMessage
  simp only [hc, hp, ht, hroom, hi, hb, hg]

theorem NewMessage_ok {σ : Type} {P : Type} (env : Env σ) (now : Nat) (s : GoString)
    (b b' : σ) (m : Sdbot.Message P) (h : NewMessage P env now s b = .ok (m, b')) :
    ∃ p, parseMessage env s b = .ok (p, b') ∧
      m = ⟨now, p.Command, p.Params, p.Timestamp, p.Room, p.User, p.Auth, p.Target,
        p.Message, ⟨fun _ => none, fun _ _ => none⟩⟩ := by
  unfold NewMessage at h
  split at h
  · exact absurd h (by simp)
  · rename_i p b1 hp
    simp only [Except.ok.injEq, Prod.mk.injEq] at h
    obtain ⟨hm, hb⟩ := h
    subst hb
    exact ⟨p, hp, hm.symm⟩

/-- A call of `Match` whose pattern does not match the body returns false
and leaves the message as it was, whatever the cache holds. -/
theorem Match_of_find_none {P : Type} [DecidableEq P]
    (find : P → GoString → Option (List GoString)) (m : Sdbot.Message P) (r : P)
    (event : GoString) (h : find r m.Message = none) :
    m.Match find r event = .ok (false, m) := by
  unfold Message.Match
  cases m.cached event r with
  | none => simp only [h]
  | some g => rfl

theorem parseCommand_of_short (fields : List GoString) (h : fields.length < 2) :
    parseCommand fields = str "none" ∧ fields.get? 1 = none := by
  refine ⟨by unfold parseCommand; rw [if_pos h], ?_⟩
  rw [List.get?_eq_getElem?]
  exact List.getElem?_eq_none (by omega)

theorem parseCommand_of_long (fields : List GoString) (h : 2 ≤ fields.length) :
    fields.get? 1 = some (parseCommand fields) := by
  unfold parseCommand
  rw [if_neg (by omega), List.getD_eq_getElem?_getD, List.get?_eq_getElem?,
    List.getElem?_eq_getElem (by omega)]
  rfl

/-- The message text of a completed parse, case by case on the lower-cased
command. -/
theorem parseBody_ok (u : GoString → GoString) (command : GoString)
    (lines fields : List GoString) (msg : GoString)
    (h : parseBody u command lines fields = .ok msg) :
    (ToLower u command = str "c:" ∨ ToLower u command = str "pm" →
      4 ≤ fields.length ∧ msg = Join (fields.drop 4) 124) ∧
    (ToLower u command = str "none" → lines.getLast? = some msg) ∧
    (¬ (ToLower u command = str "c:" ∨ ToLower u command = str "pm") →
      ToLower u command ≠ str "none" → msg = []) := by
  unfold parseBody at h
  by_cases hc : command = []
  · subst hc
    rw [if_pos rfl] at h
    simp only [Except.ok.injEq] at h
    rw [ToLower_nil]
    refine ⟨?_, ?_, ?_⟩
    · intro hl
      rcases hl with hl | hl <;> exact absurd hl (by decide)
    · intro hl
      exact absurd hl (by decide)
    · intro _ _
      exact h.symm
  · rw [if_neg hc] at h
    simp only [] at h
    by_cases hl : ToLower u command = str "c:" ∨ ToLower u command = str "pm"
    · rw [if_pos hl] at h
      have hnone : ToLower u command ≠ str "none" := by
        rcases hl with hl | hl <;> rw [hl] <;> decide
      by_cases hlen : 4 ≤ fields.length
      · rw [if_pos hlen] at h
        simp only [Except.ok.injEq] at h
        exact ⟨fun _ => ⟨hlen, h.symm⟩, fun hn => absurd hn hnone, fun hn => absurd hl hn⟩
      · rw [if_neg hlen] at h
        exact absurd h (by simp)
    · rw [if_neg hl] at h
      by_cases hn : ToLower u command = str "none"
      · rw [if_pos hn] at h
        refine ⟨fun hl2 => absurd hl2 hl, fun _ => ?_, fun _ hn2 => absurd hn hn2⟩
        cases hlast : lines.getLast? with
        | none =>
          rw [hlast] at h
          exact absurd h (by simp)
        | some line =>
          rw [hlast] at h
          simp only [Except.ok.injEq] at h
          rw [h]
      · rw [if_neg hn] at h
        simp only [Except.ok.injEq] at h
        exact ⟨fun hl2 => absurd hl2 hl, fun hn2 => absurd hn2 hn, fun _ _ => h.symm⟩

theorem parseTimestamp_error (command : GoString) (params : List GoString) (f : Fault)
    (h : parseTimestamp command params = .error f) : f = .indexOutOfRange ∨ f = .fatal := by
  unfold parseTimestamp at h
  split at h
  · split at h
    · simp only [Except.error.injEq] at h
      exact Or.inl h.symm
    · rename_i p ps
      unfold CheckErr at h
      cases hp : (Atoi p).isNone with
      | true =>
        rw [hp] at h
        simp only [if_true, Except.error.injEq] at h
        exact Or.inr h.symm
      | false =>
        rw [hp] at h
        simp at h
  · exact absurd h (by simp)

theorem identityAt_of_short {σ : Type} (env : Env σ) (fields : List GoString) (i : Nat) (b : σ)
    (h : fields.length ≤ i) : identityAt env fields i b = .error .indexOutOfRange := by
  unfold identityAt
  rw [List.get?_eq_getElem?, List.getElem?_eq_none h]

/-! ## The claims -/

/-- C1: whenever `parseMessage` returns, the command is `fields[1]` verbatim
when the pipe-split has at least 2 fields and `"none"` otherwise, and the
parameters are `fields[2:]` when there are more than 2 fields and the command
is non-empty, and empty otherwise; and every frame without `|` is parsed to
the end with command `"none"` and no parameters. -/
theorem C1_command_and_params {σ : Type} (env : Env σ) (s : GoString) (b : σ) :
    (∀ r b', parseMessage env s b = .ok (r, b') →
      (2 ≤ (Split s 124).length → (Split s 124).get? 1 = some r.Command) ∧
      ((Split s 124).length < 2 → r.Command = str "none") ∧
      (2 < (Split s 124).length ∧ r.Command ≠ [] → r.Params = (Split s 124).drop 2) ∧
      (¬ (2 < (Split s 124).length ∧ r.Command ≠ []) → r.Params = [])) ∧
    (124 ∉ s → ∃ r b', parseMessage env s b = .ok (r, b') ∧
      r.Command = str "none" ∧ r.Params = []) := by
  constructor
  · intro r b' h
    obtain ⟨hc, hp, -⟩ := parseMessage_ok env s b b' r h
    refine ⟨?_, ?_, ?_, ?_⟩
    · intro hlen
      rw [hc]
      unfold parseCommand
      rw [if_neg (by omega)]
      rw [List.getD_eq_getElem?_getD, List.get?_eq_getElem?]
      rw [List.getElem?_eq_getElem (by omega)]
      rfl
    · intro hlen
      rw [hc]
      unfold parseCommand
      rw [if_pos hlen]
    · rintro ⟨hlen, hne⟩
      rw [hp]
      unfold parseParams
      rw [if_neg hne, if_pos hlen]
    · intro hn
      rw [hp]
      unfold parseParams
      by_cases hne : r.Command = []
      · rw [if_pos hne]
      · rw [if_neg hne, if_neg (fun hlen => hn ⟨hlen, hne⟩)]
  · intro h
    obtain ⟨room, b1, line, -, -, hm⟩ := parseMessage_no_bar env s b h
    exact ⟨_, _, hm, rfl, rfl⟩

/-- C1 at the frames `|pm|%Alice|Bob|Hello there` and `just a raw line`. -/
theorem C1_command_and_params_witness :
    (∃ r b', parseMessage sampleEnv (str "|pm|%Alice|Bob|Hello there") [] = .ok (r, b') ∧
      (Split (str "|pm|%Alice|Bob|Hello there") 124).get? 1 = some r.Command ∧
      r.Params = [str "%Alice", str "Bob", str "Hello there"]) ∧
    (∃ r b', parseMessage sampleEnv (str "just a raw line") [] = .ok (r, b') ∧
      r.Command = str "none" ∧ r.Params = []) :=
  ⟨⟨_, _, rfl,
    ((C1_command_and_params sampleEnv (str "|pm|%Alice|Bob|Hello there") []).1 _ _ rfl).1
      (by decide),
    ((C1_command_and_params sampleEnv (str "|pm|%Alice|Bob|Hello there") []).1 _ _ rfl).2.2.1
      (by decide)⟩,
   (C1_command_and_params sampleEnv (str "just a raw line") []).2 (by decide)⟩

/-- C2: whenever `parseMessage` returns, the target is the returned user
exactly when the lower-cased command is `"pm"`, and otherwise it is the
returned room. -/
theorem C2_target_iff_pm {σ : Type} (env : Env σ) (s : GoString) (b b' : σ) (r : Parsed)
    (h : parseMessage env s b = .ok (r, b')) :
    (r.Target = .ofUser r.User ↔ ToLower env.unicodeLower r.Command = str "pm") ∧
    (ToLower env.unicodeLower r.Command ≠ str "pm" → r.Target = .ofRoom r.Room) := by
  obtain ⟨-, -, -, -, -, ht⟩ := parseMessage_ok env s b b' r h
  rw [ht]
  unfold parseTarget
  by_cases hpm : ToLower env.unicodeLower r.Command = str "pm"
  · simp [hpm]
  · simp [hpm]

/-- C2 at the frames `|pm|%Alice|Bob|Hello there` (target: the user) and
`>lobby\n|c:|1680000000|%Alice|Hello everyone` (target: the room). -/
theorem C2_target_iff_pm_witness :
    (∃ r b', parseMessage sampleEnv (str "|pm|%Alice|Bob|Hello there") [] = .ok (r, b') ∧
      r.Target = .ofUser r.User) ∧
    (∃ r b', parseMessage sampleEnv (str ">lobby\n|c:|1680000000|%Alice|Hello everyone") []
        = .ok (r, b') ∧ r.Target = .ofRoom r.Room) :=
  ⟨⟨_, _, rfl,
    (C2_target_iff_pm sampleEnv (str "|pm|%Alice|Bob|Hello there") [] _ _ rfl).1.2 rfl⟩,
   ⟨_, _, rfl,
    (C2_target_iff_pm sampleEnv (str ">lobby\n|c:|1680000000|%Alice|Hello everyone") [] _ _
      rfl).2 (by decide)⟩⟩

/-- C3, as the code has it: on a message built by `NewMessage` the first call
`Match(r, event)` with a pattern that matches the body does not return true;
it panics on the write into the inner map, which `NewMessage` never creates.
So do two successive calls. -/
theorem C3_first_match_panics {σ : Type} {P : Type} [DecidableEq P] (env : Env σ)
    (find : P → GoString → Option (List GoString)) (now : Nat) (s : GoString) (b b' : σ)
    (m : Sdbot.Message P) (r : P) (event : GoString) (groups : List GoString)
    (hm : NewMessage P env now s b = .ok (m, b')) (hfind : find r m.Message = some groups) :
    m.Match find r event = .error .assignmentToNilMap ∧
    m.MatchTwice find r event = .error .assignmentToNilMap := by
  obtain ⟨p, -, hp⟩ := NewMessage_ok env now s b b' m hm
  have h1 : m.Match find r event = .error .assignmentToNilMap := by
    subst hp
    simp only [Message.Match, Message.cached, Message.store] at hfind ⊢
    simp only [hfind]
  refine ⟨h1, ?_⟩
  unfold Message.MatchTwice
  rw [h1]

/-- C3 at the frame `|pm|%Alice|Bob|Hello there`, pattern `Hello`, event
`chat`. -/
theorem C3_first_match_panics_witness :
    ∃ m b', NewMessage GoString sampleEnv 0 (str "|pm|%Alice|Bob|Hello there") [] = .ok (m, b') ∧
      sampleFind (str "Hello") m.Message = some [str "Hello"] ∧
      m.Match sampleFind (str "Hello") (str "chat") = .error .assignmentToNilMap ∧
      m.MatchTwice sampleFind (str "Hello") (str "chat") = .error .assignmentToNilMap :=
  ⟨_, _, rfl, rfl,
    C3_first_match_panics sampleEnv sampleFind 0 (str "|pm|%Alice|Bob|Hello there") [] _ _
      (str "Hello") (str "chat") [str "Hello"] rfl rfl⟩

/-- C4: on a message built by `NewMessage`, a call `Match(r, event)` with a
pattern that does not match the body returns false and leaves the message,
its match cache included, exactly as it was; two successive calls return
false and false. -/
theorem C4_no_match_is_false {σ : Type} {P : Type} [DecidableEq P] (env : Env σ)
    (find : P → GoString → Option (List GoString)) (now : Nat) (s : GoString) (b b' : σ)
    (m : Sdbot.Message P) (r : P) (event : GoString)
    (_hm : NewMessage P env now s b = .ok (m, b')) (hfind : find r m.Message = none) :
    m.Match find r event = .ok (false, m) ∧
    m.MatchTwice find r event = .ok (false, false, m) := by
  have h1 := Match_of_find_none find m r event hfind
  refine ⟨h1, ?_⟩
  unfold Message.MatchTwice
  simp only [h1]

/-- C4 at the frame `|pm|%Alice|Bob|Hello there`, pattern `Bye`, event
`chat`. -/
theorem C4_no_match_is_false_witness :
    ∃ m b', NewMessage GoString sampleEnv 0 (str "|pm|%Alice|Bob|Hello there") [] = .ok (m, b') ∧
      m.Match sampleFind (str "Bye") (str "chat") = .ok (false, m) ∧
      m.MatchTwice sampleFind (str "Bye") (str "chat") = .ok (false, false, m) :=
  ⟨_, _, rfl,
    C4_no_match_is_false sampleEnv sampleFind 0 (str "|pm|%Alice|Bob|Hello there") [] _ _
      (str "Bye") (str "chat") rfl rfl⟩

/-- C5: on a message built by `NewMessage`, `Private()` is true exactly when
the lower-cased command is `"pm"`; for every other frame, with or without a
resolved user, it is false. -/
theorem C5_private_iff_pm {σ : Type} {P : Type} (env : Env σ) (now : Nat) (s : GoString)
    (b b' : σ) (m : Sdbot.Message P) (hm : NewMessage P env now s b = .ok (m, b')) :
    (m.Private = true ↔ ToLower env.unicodeLower m.Command = str "pm") ∧
    (ToLower env.unicodeLower m.Command ≠ str "pm" → m.Private = false) := by
  obtain ⟨p, hp, hmp⟩ := NewMessage_ok env now s b b' m hm
  obtain ⟨-, -, -, -, -, ht⟩ := parseMessage_ok env s b b' p hp
  subst hmp
  simp only [Message.Private, ht, parseTarget]
  by_cases hpm : ToLower env.unicodeLower p.Command = str "pm"
  · simp [hpm]
  · simp [hpm]

/-- C5 at the frames `|pm|%Alice|Bob|Hello there` (private), `just a raw
line` (no user) and `>lobby\n|c:|1680000000|%Alice|Hello everyone` (a room). -/
theorem C5_private_iff_pm_witness :
    (∃ m b', NewMessage GoString sampleEnv 0 (str "|pm|%Alice|Bob|Hello there") [] = .ok (m, b') ∧
      m.Private = true) ∧
    (∃ m b', NewMessage GoString sampleEnv 0 (str "just a raw line") [] = .ok (m, b') ∧
      m.User = none ∧ m.Private = false) ∧
    (∃ m b', NewMessage GoString sampleEnv 0
        (str ">lobby\n|c:|1680000000|%Alice|Hello everyone") [] = .ok (m, b') ∧
      m.Private = false) :=
  ⟨⟨_, _, rfl,
    (C5_private_iff_pm sampleEnv 0 (str "|pm|%Alice|Bob|Hello there") [] _ _ rfl).1.2 rfl⟩,
   ⟨_, _, rfl, rfl,
    (C5_private_iff_pm sampleEnv 0 (str "just a raw line") [] _ _ rfl).2 (by decide)⟩,
   ⟨_, _, rfl,
    (C5_private_iff_pm sampleEnv 0 (str ">lobby\n|c:|1680000000|%Alice|Hello everyone") [] _ _
      rfl).2 (by decide)⟩⟩

/-- C6, the claim as stated is false: the frame `|` is parsed to the end and
the returned command is the empty string. -/
theorem C6_empty_command_returned :
    ∃ r b', parseMessage sampleEnv (str "|") [] = .ok (r, b') ∧ r.Command = [] :=
  ⟨_, _, rfl, rfl⟩

/-- C6, amended: whenever `parseMessage` returns, the command is the empty
string exactly when the pipe-split has a field `fields[1]` and that field is
empty, and then the parameters and the body are empty too; a non-empty
command is `"none"` or the field `fields[1]`. -/
theorem C6_command_empty_iff {σ : Type} (env : Env σ) (s : GoString) (b b' : σ) (r : Parsed)
    (h : parseMessage env s b = .ok (r, b')) :
    (r.Command = [] ↔ (Split s 124).get? 1 = some []) ∧
    (r.Command = [] → r.Params = [] ∧ r.Message = []) ∧
    (r.Command ≠ [] → r.Command = str "none" ∨ (Split s 124).get? 1 = some r.Command) := by
  obtain ⟨hc, hp, -, -, hb, -⟩ := parseMessage_ok env s b b' r h
  refine ⟨?_, ?_, ?_⟩
  · by_cases hlen : (Split s 124).length < 2
    · obtain ⟨h1, h2⟩ := parseCommand_of_short _ hlen
      rw [hc, h1, h2]
      constructor
      · intro e
        exact absurd e (by decide)
      · intro e
        exact absurd e (by simp)
    · have h1 := parseCommand_of_long (Split s 124) (by omega)
      rw [h1, hc]
      constructor
      · intro e
        rw [e]
      · intro e
        exact (Option.some.inj e)
  · intro he
    constructor
    · rw [hp, he]
      rfl
    · rw [he] at hb
      unfold parseBody at hb
      rw [if_pos rfl] at hb
      simp only [Except.ok.injEq] at hb
      exact hb.symm
  · intro _
    by_cases hlen : (Split s 124).length < 2
    · exact Or.inl (hc.trans (parseCommand_of_short _ hlen).1)
    · right
      rw [hc]
      exact parseCommand_of_long (Split s 124) (by omega)

/-- C6 amended, at the frames `||x` (empty command) and `|pm|%Alice|Bob|Hello
there`. -/
theorem C6_command_empty_iff_witness :
    (∃ r b', parseMessage sampleEnv (str "||x") [] = .ok (r, b') ∧
      r.Command = [] ∧ r.Params = [] ∧ r.Message = []) ∧
    (∃ r b', parseMessage sampleEnv (str "|pm|%Alice|Bob|Hello there") [] = .ok (r, b') ∧
      (r.Command = str "none" ∨
        (Split (str "|pm|%Alice|Bob|Hello there") 124).get? 1 = some r.Command)) :=
  ⟨⟨_, _, rfl,
    (C6_command_empty_iff sampleEnv (str "||x") [] _ _ rfl).1.2 rfl,
    (C6_command_empty_iff sampleEnv (str "||x") [] _ _ rfl).2.1 rfl⟩,
   ⟨_, _, rfl,
    (C6_command_empty_iff sampleEnv (str "|pm|%Alice|Bob|Hello there") [] _ _ rfl).2.2
      (by decide)⟩⟩

/-- C7, the claim as stated is false: the frame `|pm|%Alice|Bob` has exactly
4 fields and is parsed to the end; `fields[4:]` is the empty sequence, the
body is the empty string, and splitting the body gives one (empty) piece. -/
theorem C7_four_fields_no_roundtrip :
    ∃ r b', parseMessage sampleEnv (str "|pm|%Alice|Bob") [] = .ok (r, b') ∧
      ToLower sampleEnv.unicodeLower r.Command = str "pm" ∧
      (Split (str "|pm|%Alice|Bob") 124).length = 4 ∧
      (Split (str "|pm|%Alice|Bob") 124).drop 4 = [] ∧
      Split r.Message 124 = [[]] ∧
      Split r.Message 124 ≠ (Split (str "|pm|%Alice|Bob") 124).drop 4 :=
  ⟨_, _, rfl, rfl, rfl, rfl, rfl, by decide⟩

/-- C7, amended: whenever `parseMessage` returns and the lower-cased command
is `"c:"` or `"pm"`, the frame has at least 4 fields and the body is
`fields[4:]` joined with `|`; splitting the body on `|` gives back
`fields[4:]` when the frame has at least 5 fields, and when it has exactly 4
the body is empty and its split is the single empty piece. -/
theorem C7_body_roundtrip {σ : Type} (env : Env σ) (s : GoString) (b b' : σ) (r : Parsed)
    (h : parseMessage env s b = .ok (r, b'))
    (hl : ToLower env.unicodeLower r.Command = str "c:" ∨
      ToLower env.unicodeLower r.Command = str "pm") :
    4 ≤ (Split s 124).length ∧
    r.Message = Join ((Split s 124).drop 4) 124 ∧
    (5 ≤ (Split s 124).length → Split r.Message 124 = (Split s 124).drop 4) ∧
    ((Split s 124).length = 4 → r.Message = [] ∧ Split r.Message 124 = [[]]) := by
  obtain ⟨-, -, -, -, hb, -⟩ := parseMessage_ok env s b b' r h
  obtain ⟨hlen, hmsg⟩ := (parseBody_ok _ _ _ _ _ hb).1 hl
  refine ⟨hlen, hmsg, ?_, ?_⟩
  · intro h5
    rw [hmsg]
    apply Split_Join
    · intro e
      have := congrArg List.length e
      simp only [List.length_drop, List.length_nil] at this
      omega
    · intro e he
      exact Split_not_mem s 124 e (List.mem_of_mem_drop he)
  · intro h4
    have hd : (Split s 124).drop 4 = [] := List.drop_eq_nil_of_le (by omega)
    rw [hmsg, hd]
    exact ⟨rfl, rfl⟩

/-- C7 amended, at the frames `|pm|%Alice|Bob|a|b` and
`>lobby\n|c:|1680000000|%Alice|Hello everyone`. -/
theorem C7_body_roundtrip_witness :
    (∃ r b', parseMessage sampleEnv (str "|pm|%Alice|Bob|a|b") [] = .ok (r, b') ∧
      r.Message = str "a|b" ∧ Split r.Message 124 = [str "a", str "b"]) ∧
    (∃ r b', parseMessage sampleEnv (str ">lobby\n|c:|1680000000|%Alice|Hello everyone") []
        = .ok (r, b') ∧ r.Message = str "Hello everyone") :=
  ⟨⟨_, _, rfl,
    (C7_body_roundtrip sampleEnv (str "|pm|%Alice|Bob|a|b") [] _ _ rfl (Or.inr rfl)).2.1,
    (C7_body_roundtrip sampleEnv (str "|pm|%Alice|Bob|a|b") [] _ _ rfl (Or.inr rfl)).2.2.1
      (by decide)⟩,
   ⟨_, _, rfl,
    (C7_body_roundtrip sampleEnv (str ">lobby\n|c:|1680000000|%Alice|Hello everyone") [] _ _
      rfl (Or.inl rfl)).2.1⟩⟩

/-- C8, as the code has it: when the lower-cased command is `"c:"` and the
frame has fewer than 4 fields, or it is one of `"c"`, `"j"`, `"l"`, `"n"`,
`"pm"` and the frame has fewer than 3 fields, `parseMessage` returns nothing
to its caller: it stops on an index-out-of-range panic (or, before that, on
the fatal exit of `CheckErr`). -/
theorem C8_short_frame_panics {σ : Type} (env : Env σ) (s : GoString) (b : σ)
    (h : (ToLower env.unicodeLower (parseCommand (Split s 124)) = str "c:" ∧
        (Split s 124).length < 4) ∨
      ((ToLower env.unicodeLower (parseCommand (Split s 124)) = str "c" ∨
        ToLower env.unicodeLower (parseCommand (Split s 124)) = str "j" ∨
        ToLower env.unicodeLower (parseCommand (Split s 124)) = str "l" ∨
        ToLower env.unicodeLower (parseCommand (Split s 124)) = str "n" ∨
        ToLower env.unicodeLower (parseCommand (Split s 124)) = str "pm") ∧
        (Split s 124).length < 3)) :
    parseMessage env s b = .error .indexOutOfRange ∨ parseMessage env s b = .error .fatal := by
  have hid : ∀ b1, parseIdentity env (parseCommand (Split s 124)) (Split s 124) b1
      = .error .indexOutOfRange := by
    intro b1
    unfold parseIdentity
    simp only []
    rcases h with ⟨hc, hlen⟩ | ⟨hc, hlen⟩
    · rw [if_pos hc]
      exact identityAt_of_short env _ 3 b1 (by omega)
    · have hne : ToLower env.unicodeLower (parseCommand (Split s 124)) ≠ str "c:" := by
        rcases hc with hc | hc | hc | hc | hc <;> rw [hc] <;> decide
      rw [if_neg hne, if_pos hc]
      exact identityAt_of_short env _ 2 b1 (by omega)
  unfold parseMessage
  simp only []
  cases hts : parseTimestamp (parseCommand (Split s 124))
      (parseParams (parseCommand (Split s 124)) (Split s 124)) with
  | error f =>
    rcases parseTimestamp_error _ _ f hts with hf | hf
    · exact Or.inl (by rw [hf])
    · exact Or.inr (by rw [hf])
  | ok ts =>
    obtain ⟨room, b1, hroom⟩ := parseRoom_Split_ok env s b
    left
    simp only [hroom, hid b1]

/-- C8 at the frames `|c` (2 fields) and `|c:|1680000000` (3 fields). -/
theorem C8_short_frame_panics_witness :
    parseMessage sampleEnv (str "|c") [] = .error .indexOutOfRange ∧
    parseMessage sampleEnv (str "|c:|1680000000") [] = .error .indexOutOfRange ∧
    (parseMessage sampleEnv (str "|c") [] = .error .indexOutOfRange ∨
      parseMessage sampleEnv (str "|c") [] = .error .fatal) :=
  ⟨rfl, rfl, C8_short_frame_panics sampleEnv (str "|c") [] (Or.inr ⟨Or.inl rfl, by decide⟩)⟩

/-- C9, as the code has it: when the command contains a colon and there are
no parameters, `parseMessage` returns nothing to its caller: it stops on the
index-out-of-range panic of `params[0]`. -/
theorem C9_colon_without_params_panics {σ : Type} (env : Env σ) (s : GoString) (b : σ)
    (hc : Contains (parseCommand (Split s 124)) (str ":") = true)
    (hp : parseParams (parseCommand (Split s 124)) (Split s 124) = []) :
    parseMessage env s b = .error .indexOutOfRange := by
  have hts : parseTimestamp (parseCommand (Split s 124))
      (parseParams (parseCommand (Split s 124)) (Split s 124)) = .error .indexOutOfRange := by
    unfold parseTimestamp
    rw [if_pos hc, hp]
  unfold parseMessage
  simp only [hts]

/-- C9 at the frame `|c:`, which ends right after the command field. -/
theorem C9_colon_without_params_panics_witness :
    parseParams (parseCommand (Split (str "|c:") 124)) (Split (str "|c:") 124) = [] ∧
    parseMessage sampleEnv (str "|c:") [] = .error .indexOutOfRange :=
  ⟨rfl, C9_colon_without_params_panics sampleEnv (str "|c:") [] rfl rfl⟩

/-- C10: whenever `parseMessage` returns, the body is fixed by the lower-cased
command: for `"c:"` or `"pm"` it is `fields[4:]` joined with `|`; for
`"none"` it is the last element of the newline-split of the frame; for every
other command, the empty one included, it is the empty string. -/
theorem C10_body_by_command {σ : Type} (env : Env σ) (s : GoString) (b b' : σ) (r : Parsed)
    (h : parseMessage env s b = .ok (r, b')) :
    (ToLower env.unicodeLower r.Command = str "c:" ∨
      ToLower env.unicodeLower r.Command = str "pm" →
        r.Message = Join ((Split s 124).drop 4) 124) ∧
    (ToLower env.unicodeLower r.Command = str "none" →
        (Split s 10).getLast? = some r.Message) ∧
    (ToLower env.unicodeLower r.Command ≠ str "c:" →
      ToLower env.unicodeLower r.Command ≠ str "pm" →
      ToLower env.unicodeLower r.Command ≠ str "none" → r.Message = []) ∧
    (r.Command = [] → r.Message = []) := by
  obtain ⟨-, -, -, -, hb, -⟩ := parseMessage_ok env s b b' r h
  obtain ⟨h1, h2, h3⟩ := parseBody_ok _ _ _ _ _ hb
  refine ⟨fun hl => (h1 hl).2, h2, ?_, ?_⟩
  · intro n1 n2 n3
    exact h3 (fun hl => hl.elim n1 n2) n3
  · intro he
    apply h3
    · rw [he, ToLower_nil]
      decide
    · rw [he, ToLower_nil]
      decide

/-- C10 at the frames `|pm|%Alice|Bob|Hello there`, `just a raw line`,
`x\n|NoNe|y` (a literal `none` in mixed case), `|j|%Alice` and `||x`. -/
theorem C10_body_by_command_witness :
    (∃ r b', parseMessage sampleEnv (str "|pm|%Alice|Bob|Hello there") [] = .ok (r, b') ∧
      r.Message = str "Hello there") ∧
    (∃ r b', parseMessage sampleEnv (str "just a raw line") [] = .ok (r, b') ∧
      (Split (str "just a raw line") 10).getLast? = some r.Message) ∧
    (∃ r b', parseMessage sampleEnv (str "x\n|NoNe|y") [] = .ok (r, b') ∧
      r.Command = str "NoNe" ∧ r.Message = str "|NoNe|y" ∧
      (Split (str "x\n|NoNe|y") 10).getLast? = some r.Message) ∧
    (∃ r b', parseMessage sampleEnv (str "|j|%Alice") [] = .ok (r, b') ∧ r.Message = []) ∧
    (∃ r b', parseMessage sampleEnv (str "||x") [] = .ok (r, b') ∧ r.Message = []) :=
  ⟨⟨_, _, rfl,
    (C10_body_by_command sampleEnv (str "|pm|%Alice|Bob|Hello there") [] _ _ rfl).1
      (Or.inr rfl)⟩,
   ⟨_, _, rfl, (C10_body_by_command sampleEnv (str "just a raw line") [] _ _ rfl).2.1 rfl⟩,
   ⟨_, _, rfl, rfl, rfl,
    (C10_body_by_command sampleEnv (str "x\n|NoNe|y") [] _ _ rfl).2.1 rfl⟩,
   ⟨_, _, rfl,
    (C10_body_by_command sampleEnv (str "|j|%Alice") [] _ _ rfl).2.2.1
      (by decide) (by decide) (by decide)⟩,
   ⟨_, _, rfl, (C10_body_by_command sampleEnv (str "||x") [] _ _ rfl).2.2.2 rfl⟩⟩

/-! ## Lemmas for the identity, room and timestamp blocks -/

theorem identityAt_ok {σ : Type} (env : Env σ) (fields : List GoString) (i : Nat) (b b' : σ)
    (auth : GoString) (user : UserPtr) (h : identityAt env fields i b = .ok (auth, user, b')) :
    ∃ c name, fields.get? i = some (c :: name) ∧ auth = byteToString c ∧
      user = (env.FindUserEnsured name b).1 ∧ b' = (env.FindUserEnsured name b).2 := by
  unfold identityAt at h
  split at h
  · exact absurd h (by simp)
  · exact absurd h (by simp)
  · rename_i c name hget
    simp only [Except.ok.injEq, Prod.mk.injEq] at h
    exact ⟨c, name, hget, h.1.symm, h.2.1.symm, h.2.2.symm⟩

theorem byteToString_append (c : Nat) (name : GoString) :
    (c < 128 → byteToString c ++ name = c :: name) ∧
    (128 ≤ c → byteToString c ++ name ≠ c :: name) := by
  constructor
  · intro hc
    simp [byteToString, hc]
  · intro hc e
    have hlen := congrArg List.length e
    simp [byteToString, Nat.not_lt.mpr hc] at hlen

theorem byteToString_eq_gt (c : Nat) : byteToString c = str ">" ↔ c = 62 := by
  unfold byteToString
  by_cases hc : c < 128
  · rw [if_pos hc]
    constructor
    · intro e
      exact List.head_eq_of_cons_eq e
    · intro e
      rw [e]
      rfl
  · rw [if_neg hc]
    constructor
    · intro e
      have hlen := congrArg List.length e
      simp [str] at hlen
    · intro e
      omega

/-- The five commands whose identity field is `fields[2]`. -/
theorem five_ne_c_colon (lower : GoString)
    (h : lower = str "c" ∨ lower = str "j" ∨ lower = str "l" ∨ lower = str "n"
      ∨ lower = str "pm") : lower ≠ str "c:" := by
  rcases h with h | h | h | h | h <;> rw [h] <;> decide

/-- C11, as the code has it: whenever `parseMessage` returns, for `"c:"` the
identity field is `fields[3]` and for `"c"`, `"j"`, `"l"`, `"n"`, `"pm"` it is
`fields[2]`; the field is non-empty, auth is the conversion `string(b)` of its
first byte `b`, and the user is what the user registry returns for the rest of
the field. Auth followed by that name is the field when `b` is ASCII and is
not the field when `b` is 128 or more. For every other command auth is empty
and the user is nil. -/
theorem C11_identity_field {σ : Type} (env : Env σ) (s : GoString) (b b' : σ) (r : Parsed)
    (h : parseMessage env s b = .ok (r, b')) :
    (ToLower env.unicodeLower r.Command = str "c:" →
      ∃ c name b1, (Split s 124).get? 3 = some (c :: name) ∧
        parseRoom env (Split s 10) b = .ok (r.Room, b1) ∧
        r.Auth = byteToString c ∧ r.User = (env.FindUserEnsured name b1).1 ∧
        (c < 128 → r.Auth = [c] ∧ r.Auth ++ name = c :: name) ∧
        (128 ≤ c → r.Auth ++ name ≠ c :: name)) ∧
    (ToLower env.unicodeLower r.Command = str "c" ∨
      ToLower env.unicodeLower r.Command = str "j" ∨
      ToLower env.unicodeLower r.Command = str "l" ∨
      ToLower env.unicodeLower r.Command = str "n" ∨
      ToLower env.unicodeLower r.Command = str "pm" →
      ∃ c name b1, (Split s 124).get? 2 = some (c :: name) ∧
        parseRoom env (Split s 10) b = .ok (r.Room, b1) ∧
        r.Auth = byteToString c ∧ r.User = (env.FindUserEnsured name b1).1 ∧
        (c < 128 → r.Auth = [c] ∧ r.Auth ++ name = c :: name) ∧
        (128 ≤ c → r.Auth ++ name ≠ c :: name)) ∧
    (ToLower env.unicodeLower r.Command ≠ str "c:" →
      ¬ (ToLower env.unicodeLower r.Command = str "c" ∨
        ToLower env.unicodeLower r.Command = str "j" ∨
        ToLower env.unicodeLower r.Command = str "l" ∨
        ToLower env.unicodeLower r.Command = str "n" ∨
        ToLower env.unicodeLower r.Command = str "pm") →
      r.Auth = [] ∧ r.User = none) := by
  obtain ⟨-, -, -, ⟨b1, hroom, hid⟩, -, -⟩ := parseMessage_ok env s b b' r h
  unfold parseIdentity at hid
  simp only [] at hid
  have key : ∀ i, identityAt env (Split s 124) i b1 = .ok (r.Auth, r.User, b') →
      ∃ c name b1, (Split s 124).get? i = some (c :: name) ∧
        parseRoom env (Split s 10) b = .ok (r.Room, b1) ∧
        r.Auth = byteToString c ∧ r.User = (env.FindUserEnsured name b1).1 ∧
        (c < 128 → r.Auth = [c] ∧ r.Auth ++ name = c :: name) ∧
        (128 ≤ c → r.Auth ++ name ≠ c :: name) := by
    intro i hi
    obtain ⟨c, name, hget, hauth, huser, -⟩ := identityAt_ok env _ i b1 b' _ _ hi
    refine ⟨c, name, b1, hget, hroom, hauth, huser, ?_, ?_⟩
    · intro hc
      rw [hauth]
      exact ⟨by simp [byteToString, hc], (byteToString_append c name).1 hc⟩
    · intro hc
      rw [hauth]
      exact (byteToString_append c name).2 hc
  refine ⟨?_, ?_, ?_⟩
  · intro hl
    rw [if_pos hl] at hid
    exact key 3 hid
  · intro hl
    rw [if_neg (five_ne_c_colon _ hl), if_pos hl] at hid
    exact key 2 hid
  · intro h1 h2
    rw [if_neg h1, if_neg h2] at hid
    simp only [Except.ok.injEq, Prod.mk.injEq] at hid
    exact ⟨hid.1.symm, hid.2.1.symm⟩

/-- C11 at the frame `|j|☆Alice` (`starFrame`): auth is the two bytes C3 A2,
the name looked up starts with the bytes 98 86, and auth followed by the name
is not the field. The frame `|pm|%Alice|Bob|Hello there` has an ASCII first
byte. -/
theorem C11_identity_field_witness :
    (∃ r b', parseMessage sampleEnv starFrame [] = .ok (r, b') ∧
      r.Auth = [195, 162] ∧ b' = [[152, 134] ++ str "Alice"] ∧
      (Split starFrame 124).get? 2 = some ([226, 152, 134] ++ str "Alice") ∧
      r.Auth ++ ([152, 134] ++ str "Alice") ≠ [226, 152, 134] ++ str "Alice" ∧
      ∃ c name b1, (Split starFrame 124).get? 2 = some (c :: name) ∧
        parseRoom sampleEnv (Split starFrame 10) [] = .ok (r.Room, b1) ∧
        r.Auth = byteToString c ∧ r.User = (sampleEnv.FindUserEnsured name b1).1 ∧
        (c < 128 → r.Auth = [c] ∧ r.Auth ++ name = c :: name) ∧
        (128 ≤ c → r.Auth ++ name ≠ c :: name)) ∧
    (∃ r b', parseMessage sampleEnv (str "|pm|%Alice|Bob|Hello there") [] = .ok (r, b') ∧
      r.Auth = str "%" ∧ b' = [str "Alice"]) ∧
    (∃ r b', parseMessage sampleEnv (str "just a raw line") [] = .ok (r, b') ∧
      r.Auth = [] ∧ r.User = none) :=
  ⟨⟨_, _, rfl, rfl, rfl, rfl, by decide,
    (C11_identity_field sampleEnv starFrame [] _ _ rfl).2.1 (Or.inr (Or.inl rfl))⟩,
   ⟨_, _, rfl, rfl, rfl⟩,
   ⟨_, _, rfl,
    (C11_identity_field sampleEnv (str "just a raw line") [] _ _ rfl).2.2
      (by decide) (by decide)⟩⟩

theorem parseRoom_ok {σ : Type} (env : Env σ) (lines : List GoString) (b b1 : σ)
    (room : RoomPtr) (h : parseRoom env lines b = .ok (room, b1)) :
    ∃ l0, lines.head? = some l0 ∧
      ((l0 = [] ∨ l0.head? ≠ some 62) → room = .fresh ∧ b1 = b) ∧
      (∀ name, l0 = 62 :: name →
        room = .ensured (env.FindRoomEnsured name b).1 ∧ b1 = (env.FindRoomEnsured name b).2) := by
  unfold parseRoom at h
  split at h
  · exact absurd h (by simp)
  · rename_i rest
    simp only [Except.ok.injEq, Prod.mk.injEq] at h
    refine ⟨[], rfl, fun _ => ⟨h.1.symm, h.2.symm⟩, ?_⟩
    intro name e
    exact absurd e (by simp)
  · rename_i c name rest
    refine ⟨c :: name, rfl, ?_, ?_⟩
    · intro hno
      have hc : ¬ byteToString c = str ">" := by
        rw [byteToString_eq_gt]
        intro e
        rcases hno with hno | hno
        · exact absurd hno (by simp)
        · exact hno (by simp [e])
      rw [if_neg hc] at h
      simp only [Except.ok.injEq, Prod.mk.injEq] at h
      exact ⟨h.1.symm, h.2.symm⟩
    · intro name2 e
      have hc : byteToString c = str ">" := by
        rw [byteToString_eq_gt]
        exact List.head_eq_of_cons_eq e
      have hn : name = name2 := List.tail_eq_of_cons_eq e
      rw [if_pos hc] at h
      simp only [Except.ok.injEq, Prod.mk.injEq] at h
      rw [← hn]
      exact ⟨h.1.symm, h.2.symm⟩

/-- C12: whenever `parseMessage` returns, the newline-split has a first line;
when that line is empty or does not begin with `>` the room is the freshly
allocated `&Room{}`, which is not nil; when it is `>` followed by `name` the
room is what the room registry returns for `name` on the bot as first given.
So when the registry never returns nil the room is never nil. -/
theorem C12_room_resolution {σ : Type} (env : Env σ) (s : GoString) (b b' : σ) (r : Parsed)
    (h : parseMessage env s b = .ok (r, b')) :
    ∃ l0, (Split s 10).head? = some l0 ∧
      ((l0 = [] ∨ l0.head? ≠ some 62) → r.Room = .fresh ∧ r.Room ≠ .ensured none) ∧
      (∀ name, l0 = 62 :: name → r.Room = .ensured (env.FindRoomEnsured name b).1) ∧
      ((∀ name st, (env.FindRoomEnsured name st).1 ≠ none) → r.Room ≠ .ensured none) := by
  obtain ⟨-, -, -, ⟨b1, hroom, -⟩, -, -⟩ := parseMessage_ok env s b b' r h
  obtain ⟨l0, hl0, hfresh, hens⟩ := parseRoom_ok env _ b b1 r.Room hroom
  refine ⟨l0, hl0, ?_, ?_, ?_⟩
  · intro hno
    rw [(hfresh hno).1]
    exact ⟨rfl, by simp⟩
  · intro name e
    exact (hens name e).1
  · intro hnn
    by_cases hgt : ∃ name, l0 = 62 :: name
    · obtain ⟨name, e⟩ := hgt
      rw [(hens name e).1]
      intro e2
      exact hnn name b (RoomPtr.ensured.inj e2)
    · have hno : l0 = [] ∨ l0.head? ≠ some 62 := by
        cases l0 with
        | nil => exact Or.inl rfl
        | cons c name =>
          right
          intro e
          simp only [List.head?_cons, Option.some.injEq] at e
          exact hgt ⟨name, by rw [e]⟩
      rw [(hfresh hno).1]
      simp

/-- C12 at the frames `>lobby\n|c:|1680000000|%Alice|Hello everyone` (the room
registered first, at address 1), `|pm|%Alice|Bob|Hello there` and the empty
frame (no room line: the fresh room). -/
theorem C12_room_resolution_witness :
    (∃ r b', parseMessage sampleEnv (str ">lobby\n|c:|1680000000|%Alice|Hello everyone") []
        = .ok (r, b') ∧ r.Room = .ensured (some 1) ∧
      ∃ l0, (Split (str ">lobby\n|c:|1680000000|%Alice|Hello everyone") 10).head? = some l0 ∧
        ((l0 = [] ∨ l0.head? ≠ some 62) → r.Room = .fresh ∧ r.Room ≠ .ensured none) ∧
        (∀ name, l0 = 62 :: name → r.Room = .ensured (sampleEnv.FindRoomEnsured name []).1) ∧
        ((∀ name st, (sampleEnv.FindRoomEnsured name st).1 ≠ none) →
          r.Room ≠ .ensured none)) ∧
    (∃ r b', parseMessage sampleEnv (str "|pm|%Alice|Bob|Hello there") [] = .ok (r, b') ∧
      r.Room = .fresh) ∧
    (∃ r b', parseMessage sampleEnv [] [] = .ok (r, b') ∧ r.Room = .fresh) :=
  ⟨⟨_, _, rfl, rfl,
    C12_room_resolution sampleEnv (str ">lobby\n|c:|1680000000|%Alice|Hello everyone") [] _ _
      rfl⟩,
   ⟨_, _, rfl, rfl⟩, ⟨_, _, rfl, rfl⟩⟩

/-- A string contains `":"` exactly when one of its bytes is 58. -/
theorem Contains_colon_iff (s : GoString) : Contains s (str ":") = true ↔ 58 ∈ s := by
  induction s with
  | nil => simp [Contains, str, List.isPrefixOf]
  | cons c cs ih =>
    have hstep : Contains (c :: cs) (str ":") = ((58 == c) || Contains cs (str ":")) := by
      simp [Contains, str, List.isPrefixOf]
    rw [hstep, Bool.or_eq_true, ih]
    simp only [beq_iff_eq, List.mem_cons]

theorem Atoi_of_digits (p : GoString) (hne : p ≠ [])
    (hd : p.all (fun c => decide (48 ≤ c ∧ c ≤ 57)) = true) (hr : digitsValue p < 2 ^ 63) :
    Atoi p = some (digitsValue p : Int) := by
  cases p with
  | nil => exact absurd rfl hne
  | cons c cs =>
    have hc : 48 ≤ c ∧ c ≤ 57 := by
      have := List.all_eq_true.mp hd c (by simp)
      simpa using this
    have h45 : c ≠ 45 := by omega
    have h43 : c ≠ 43 := by omega
    have hdig : atoiDigits (c :: cs) = some (digitsValue (c :: cs)) := by
      unfold atoiDigits
      rw [if_pos ⟨hne, hd⟩]
    unfold Atoi
    simp only [h45, h43, if_false, hdig]
    rw [if_pos hr]

theorem parseTimestamp_ok (command : GoString) (params : List GoString) (ts : Int)
    (h : parseTimestamp command params = .ok ts) :
    (Contains command (str ":") = false → ts = 0) ∧
    (Contains command (str ":") = true →
      ∃ p rest, params = p :: rest ∧ Atoi p = some ts) := by
  unfold parseTimestamp at h
  by_cases hc : Contains command (str ":") = true
  · rw [if_pos hc] at h
    refine ⟨fun hf => absurd hc (by simp [hf]), fun _ => ?_⟩
    cases params with
    | nil => exact absurd h (by simp)
    | cons p rest =>
      refine ⟨p, rest, rfl, ?_⟩
      simp only [] at h
      cases hp : Atoi p with
      | none =>
        rw [hp] at h
        simp [CheckErr] at h
      | some v =>
        rw [hp] at h
        simp only [CheckErr, Option.isNone_some, Bool.false_eq_true, if_false,
          Option.getD_some, Except.ok.injEq] at h
        rw [h]
  · rw [if_neg hc] at h
    simp only [Except.ok.injEq] at h
    exact ⟨fun _ => h.symm, fun ht => absurd ht hc⟩

/-- C13: whenever `parseMessage` returns: when the command contains no colon
the timestamp is 0, and the timestamp block returns 0 for any parameters, the
empty sequence included, so `params[0]` is not read; when the command contains
a colon, whatever the command, there is a `params[0]`, `Atoi` accepted it, and
if it is a non-empty string of decimal digits whose value is below `2^63` the
timestamp is that value. -/
theorem C13_timestamp {σ : Type} (env : Env σ) (s : GoString) (b b' : σ) (r : Parsed)
    (h : parseMessage env s b = .ok (r, b')) :
    (58 ∉ r.Command →
      r.Timestamp = 0 ∧ ∀ params, parseTimestamp r.Command params = .ok 0) ∧
    (58 ∈ r.Command →
      ∃ p rest, r.Params = p :: rest ∧ Atoi p = some r.Timestamp ∧
        (p ≠ [] → p.all (fun c => decide (48 ≤ c ∧ c ≤ 57)) = true →
          digitsValue p < 2 ^ 63 → r.Timestamp = (digitsValue p : Int))) := by
  obtain ⟨-, -, hts, -, -, -⟩ := parseMessage_ok env s b b' r h
  obtain ⟨h0, h1⟩ := parseTimestamp_ok _ _ _ hts
  constructor
  · intro hno
    have hc : Contains r.Command (str ":") = false := by
      rw [← Bool.not_eq_true, Contains_colon_iff]
      exact hno
    refine ⟨h0 hc, fun params => ?_⟩
    unfold parseTimestamp
    rw [hc]
    rfl
  · intro hyes
    obtain ⟨p, rest, hp, ha⟩ := h1 ((Contains_colon_iff _).mpr hyes)
    refine ⟨p, rest, hp, ha, fun hne hd hr => ?_⟩
    rw [Atoi_of_digits p hne hd hr] at ha
    exact (Option.some.inj ha).symm

/-- C13 at the frames `>lobby\n|c:|1680000000|%Alice|Hello everyone`, `|x:y|42`
(a colon in a command that is not `c:`) and `|j|%Alice` (no colon). -/
theorem C13_timestamp_witness :
    (∃ r b', parseMessage sampleEnv (str ">lobby\n|c:|1680000000|%Alice|Hello everyone") []
        = .ok (r, b') ∧ r.Timestamp = 1680000000 ∧
      ∃ p rest, r.Params = p :: rest ∧ Atoi p = some r.Timestamp ∧
        (p ≠ [] → p.all (fun c => decide (48 ≤ c ∧ c ≤ 57)) = true →
          digitsValue p < 2 ^ 63 → r.Timestamp = (digitsValue p : Int))) ∧
    (∃ r b', parseMessage sampleEnv (str "|x:y|42") [] = .ok (r, b') ∧ r.Timestamp = 42) ∧
    (∃ r b', parseMessage sampleEnv (str "|j|%Alice") [] = .ok (r, b') ∧ r.Timestamp = 0) :=
  ⟨⟨_, _, rfl, rfl,
    (C13_timestamp sampleEnv (str ">lobby\n|c:|1680000000|%Alice|Hello everyone") [] _ _
      rfl).2 (by decide)⟩,
   ⟨_, _, rfl, rfl⟩,
   ⟨_, _, rfl, ((C13_timestamp sampleEnv (str "|j|%Alice") [] _ _ rfl).1 (by decide)).1⟩⟩

/-! ## Lemmas on `Match` -/

/-- A call of `Match` whose cache entry is present returns false and leaves
the message as it was. -/
theorem Match_of_cached {P : Type} [DecidableEq P]
    (find : P → GoString → Option (List GoString)) (m : Sdbot.Message P) (r : P)
    (event : GoString) (h : m.cached event r ≠ none) :
    m.Match find r event = .ok (false, m) := by
  unfold Message.Match
  cases hc : m.cached event r with
  | none => exact absurd hc h
  | some g => rfl

/-- What a returning call of `Match` did: nothing, or one write into the map
object held under `event`, at the pattern `r`, which had no entry. -/
theorem Match_ok {P : Type} [DecidableEq P]
    (find : P → GoString → Option (List GoString)) (m m1 : Sdbot.Message P) (r : P)
    (event : GoString) (res : Bool) (h : m.Match find r event = .ok (res, m1)) :
    (res = false ∧ m1 = m) ∨
    (∃ a groups, m.Matches.refOf event = some a ∧ m.Matches.mapAt a r = none ∧
      find r m.Message = some groups ∧ res = true ∧
      m1 = { m with Matches := m.Matches.put a r groups }) := by
  unfold Message.Match at h
  cases hc : m.cached event r with
  | some g =>
    rw [hc] at h
    simp only [Except.ok.injEq, Prod.mk.injEq] at h
    exact Or.inl ⟨h.1.symm, h.2.symm⟩
  | none =>
    rw [hc] at h
    simp only [] at h
    cases hf : find r m.Message with
    | none =>
      rw [hf] at h
      simp only [Except.ok.injEq, Prod.mk.injEq] at h
      exact Or.inl ⟨h.1.symm, h.2.symm⟩
    | some groups =>
      rw [hf] at h
      simp only [] at h
      unfold Message.store at h
      unfold Message.cached at hc
      cases hi : m.Matches.refOf event with
      | none =>
        rw [hi] at h
        exact absurd h (by simp)
      | some a =>
        rw [hi] at h hc
        simp only [Except.ok.injEq, Prod.mk.injEq] at h
        exact Or.inr ⟨a, groups, rfl, hc, rfl, h.1.symm, h.2.symm⟩

/-- The result of `Match(r, event)` depends on the message only through its
body, the cache entry for `event` and `r`, and the inner map `event` holds. -/
theorem Match_result_congr {P : Type} [DecidableEq P]
    (find : P → GoString → Option (List GoString)) (m m1 : Sdbot.Message P) (r : P)
    (event : GoString) (hR : m1.Matches.refOf event = m.Matches.refOf event)
    (hC : m1.cached event r = m.cached event r) (hB : m1.Message = m.Message) :
    (m1.Match find r event).map Prod.fst = (m.Match find r event).map Prod.fst := by
  unfold Message.Match Message.store
  rw [hC, hB, hR]
  cases m.cached event r with
  | some g => rfl
  | none =>
    simp only []
    cases find r m.Message with
    | none => rfl
    | some groups =>
      simp only []
      cases m.Matches.refOf event <;> rfl

/-- C14: on a message whose cache holds an inner map for the event name with
no entry for the pattern, `Match(r, event)` returns, and returns true exactly
when the pattern matches the body; after a true result the cache entry for
the event and the pattern is the group sequence the match returned, the body
is unchanged, a fresh match attempt would still succeed, and the next call
returns false and changes nothing, as does every call on any message that has
an entry for the event and the pattern. -/
theorem C14_match_once {P : Type} [DecidableEq P]
    (find : P → GoString → Option (List GoString)) (m : Sdbot.Message P) (r : P)
    (event : GoString) (a : Nat)
    (hin : m.Matches.refOf event = some a) (hno : m.Matches.mapAt a r = none) :
    (m.Match find r event).map Prod.fst = .ok (find r m.Message).isSome ∧
    (find r m.Message = none → m.Match find r event = .ok (false, m)) ∧
    (∀ groups, find r m.Message = some groups →
      ∃ m1, m.Match find r event = .ok (true, m1) ∧
        m1.cached event r = some groups ∧ m1.Message = m.Message ∧
        find r m1.Message = some groups ∧
        m1.Match find r event = .ok (false, m1) ∧
        m1.MatchTwice find r event = .ok (false, false, m1)) ∧
    (∀ m2 : Sdbot.Message P, m2.cached event r ≠ none →
      m2.Match find r event = .ok (false, m2)) := by
  have hc : m.cached event r = none := by
    unfold Message.cached
    rw [hin]
    exact hno
  have hsome : ∀ groups, find r m.Message = some groups →
      ∃ m1, m.Match find r event = .ok (true, m1) ∧
        m1.cached event r = some groups ∧ m1.Message = m.Message ∧
        find r m1.Message = some groups ∧
        m1.Match find r event = .ok (false, m1) ∧
        m1.MatchTwice find r event = .ok (false, false, m1) := by
    intro groups hf
    have hm : ∃ m1, m.Match find r event = .ok (true, m1) ∧
        m1.cached event r = some groups ∧ m1.Message = m.Message := by
      unfold Message.Match Message.store
      rw [hc]
      simp only [hf, hin]
      exact ⟨_, rfl, by simp [Message.cached, MatchCache.put, hin], rfl⟩
    obtain ⟨m1, hm1, hcache, hbody⟩ := hm
    have h2 := Match_of_cached find m1 r event (by rw [hcache]; simp)
    refine ⟨m1, hm1, hcache, hbody, by rw [hbody]; exact hf, h2, ?_⟩
    unfold Message.MatchTwice
    simp only [h2]
  refine ⟨?_, ?_, hsome, fun m2 h2 => Match_of_cached find m2 r event h2⟩
  · cases hf : find r m.Message with
    | none =>
      rw [Match_of_find_none find m r event hf]
      rfl
    | some groups =>
      obtain ⟨m1, hm, -⟩ := hsome groups hf
      rw [hm]
      rfl
  · intro hf
    exact Match_of_find_none find m r event hf

/-- C14 at the message built from `|pm|%Alice|Bob|Hello there` once the inner
map of the event `chat` exists: the pattern `Hello` gives true and then
false, the pattern `Bye` gives false. -/
theorem C14_match_once_witness :
    ∃ m b', NewMessage GoString sampleEnv 0 (str "|pm|%Alice|Bob|Hello there") [] = .ok (m, b') ∧
      ((m.withEvent (str "chat") 0).Match sampleFind (str "Hello") (str "chat")).map Prod.fst
        = .ok true ∧
      ((m.withEvent (str "chat") 0).Match sampleFind (str "Bye") (str "chat")).map Prod.fst
        = .ok false ∧
      ∃ m1, (m.withEvent (str "chat") 0).Match sampleFind (str "Hello") (str "chat")
          = .ok (true, m1) ∧
        m1.cached (str "chat") (str "Hello") = some [str "Hello"] ∧
        m1.Message = (m.withEvent (str "chat") 0).Message ∧
        sampleFind (str "Hello") m1.Message = some [str "Hello"] ∧
        m1.Match sampleFind (str "Hello") (str "chat") = .ok (false, m1) ∧
        m1.MatchTwice sampleFind (str "Hello") (str "chat") = .ok (false, false, m1) :=
  ⟨_, _, rfl,
    (C14_match_once sampleFind _ (str "Hello") (str "chat") 0 rfl rfl).1,
    (C14_match_once sampleFind _ (str "Bye") (str "chat") 0 rfl rfl).1,
    (C14_match_once sampleFind _ (str "Hello") (str "chat") 0 rfl rfl).2.2.1
      [str "Hello"] rfl⟩

/-- C15, the claim as stated is false: on the message built from
`|pm|%Alice|Bob|Hello there`, let the event `chat` hold a new inner map and
let the event `pm` hold that same map. The call `Match(Hello, chat)` returns
true and fills the entry for `pm` and `Hello` as well, which is not the entry
for `chat` and `Hello`; and `Match(Hello, pm)`, which returned true before
the call, returns false after it. -/
theorem C15_shared_inner_map :
    ∃ m b' m1, NewMessage GoString sampleEnv 0 (str "|pm|%Alice|Bob|Hello there") []
        = .ok (m, b') ∧
      ((m.withEvent (str "chat") 0).shareEvent (str "pm") (str "chat")).Match sampleFind
        (str "Hello") (str "chat") = .ok (true, m1) ∧
      ((m.withEvent (str "chat") 0).shareEvent (str "pm") (str "chat")).cached (str "pm")
        (str "Hello") = none ∧
      m1.cached (str "pm") (str "Hello") = some [str "Hello"] ∧
      (((m.withEvent (str "chat") 0).shareEvent (str "pm") (str "chat")).Match sampleFind
        (str "Hello") (str "pm")).map Prod.fst = .ok true ∧
      (m1.Match sampleFind (str "Hello") (str "pm")).map Prod.fst = .ok false :=
  ⟨_, _, _, rfl, rfl, rfl, rfl, rfl, rfl⟩

/-- C15, amended: a call `Match(r, event)` that returns leaves every parsed
field of the message as it was, leaves every event name with the inner map it
held, and changes at most the entry for `r` in the one map object held under
`event`: the cache entry for `event` and `r` and, with it, the entry for `r`
of every other event name that holds the same map object. So the result of
`Match(r', event')` is the same before and after it for every event name that
does not hold the inner map of `event`; when no other event name holds it, no
cache entry other than the one for `event` and `r` changes and the result for
every other event name is unaffected. The result of `Private()`, which only
reads the message, is unchanged. -/
theorem C15_match_frame {P : Type} [DecidableEq P]
    (find : P → GoString → Option (List GoString)) (m m1 : Sdbot.Message P) (r : P)
    (event : GoString) (res : Bool) (h : m.Match find r event = .ok (res, m1)) :
    (m1.Time = m.Time ∧ m1.Command = m.Command ∧ m1.Params = m.Params ∧
      m1.Timestamp = m.Timestamp ∧ m1.Room = m.Room ∧ m1.User = m.User ∧
      m1.Auth = m.Auth ∧ m1.Target = m.Target ∧ m1.Message = m.Message) ∧
    m1.Matches.refOf = m.Matches.refOf ∧
    (∀ a q, ¬ (m.Matches.refOf event = some a ∧ q = r) →
      m1.Matches.mapAt a q = m.Matches.mapAt a q) ∧
    (∀ e q, ¬ (m.sharesMap e event ∧ q = r) → m1.cached e q = m.cached e q) ∧
    (∀ event' r', ¬ m.sharesMap event' event →
      (m1.Match find r' event').map Prod.fst = (m.Match find r' event').map Prod.fst) ∧
    ((∀ e, e ≠ event → ¬ m.sharesMap e event) →
      (∀ e q, ¬ (e = event ∧ q = r) → m1.cached e q = m.cached e q) ∧
      (∀ event' r', event' ≠ event →
        (m1.Match find r' event').map Prod.fst = (m.Match find r' event').map Prod.fst)) ∧
    m1.Private = m.Private := by
  have hbase : (m1.Time = m.Time ∧ m1.Command = m.Command ∧ m1.Params = m.Params ∧
      m1.Timestamp = m.Timestamp ∧ m1.Room = m.Room ∧ m1.User = m.User ∧
      m1.Auth = m.Auth ∧ m1.Target = m.Target ∧ m1.Message = m.Message) ∧
      m1.Matches.refOf = m.Matches.refOf ∧
      (∀ a q, ¬ (m.Matches.refOf event = some a ∧ q = r) →
        m1.Matches.mapAt a q = m.Matches.mapAt a q) := by
    rcases Match_ok find m m1 r event res h with ⟨-, hm⟩ | ⟨a, groups, hin, -, -, -, hm⟩
    · rw [hm]
      exact ⟨⟨rfl, rfl, rfl, rfl, rfl, rfl, rfl, rfl, rfl⟩, rfl, fun _ _ _ => rfl⟩
    · rw [hm]
      refine ⟨⟨rfl, rfl, rfl, rfl, rfl, rfl, rfl, rfl, rfl⟩, rfl, ?_⟩
      intro a1 q hne
      have hcond : ¬ (a1 = a ∧ q = r) := by
        rintro ⟨ha, hq⟩
        exact hne ⟨by rw [hin, ha], hq⟩
      simp only [MatchCache.put, if_neg hcond]
  obtain ⟨hf, href, hmap⟩ := hbase
  have hcache : ∀ e q, ¬ (m.sharesMap e event ∧ q = r) → m1.cached e q = m.cached e q := by
    intro e q hne
    unfold Message.cached
    rw [href]
    cases he : m.Matches.refOf e with
    | none => rfl
    | some a =>
      simp only []
      apply hmap
      rintro ⟨hev, hq⟩
      exact hne ⟨⟨a, hev, he⟩, hq⟩
  have hiso : ∀ event' r', ¬ m.sharesMap event' event →
      (m1.Match find r' event').map Prod.fst = (m.Match find r' event').map Prod.fst := by
    intro event' r' hne
    exact Match_result_congr find m m1 r' event' (by rw [href])
      (hcache event' r' (fun hc => hne hc.1)) hf.2.2.2.2.2.2.2.2
  refine ⟨hf, href, hmap, hcache, hiso, ?_, ?_⟩
  · intro hunshared
    constructor
    · intro e q hne
      apply hcache
      rintro ⟨hr, hq⟩
      by_cases he : e = event
      · exact hne ⟨he, hq⟩
      · exact hunshared e he hr
    · intro event' r' hne
      exact hiso event' r' (hunshared event' hne)
  · unfold Message.Private
    rw [hf.2.2.2.2.2.2.2.1, hf.2.2.2.2.2.1]

/-- C15 amended, at the message built from `|pm|%Alice|Bob|Hello there` once
the events `chat` and `pm` hold two different new inner maps, so that no
other event name holds the map of `chat`: after `Match(Hello, chat)` returned
true, `Match(Hello, pm)` still returns true, the entry for `pm` and `Hello` is
still absent, and `Private()` is still true. -/
theorem C15_match_frame_witness :
    ∃ m b' m1, NewMessage GoString sampleEnv 0 (str "|pm|%Alice|Bob|Hello there") []
        = .ok (m, b') ∧
      ((m.withEvent (str "chat") 0).withEvent (str "pm") 1).Match sampleFind (str "Hello")
        (str "chat") = .ok (true, m1) ∧
      (∀ e, e ≠ str "chat" →
        ¬ ((m.withEvent (str "chat") 0).withEvent (str "pm") 1).sharesMap e (str "chat")) ∧
      (m1.Match sampleFind (str "Hello") (str "pm")).map Prod.fst = .ok true ∧
      m1.cached (str "pm") (str "Hello") = none ∧
      m1.Private = true ∧
      ((∀ e q, ¬ (e = str "chat" ∧ q = str "Hello") → m1.cached e q =
          ((m.withEvent (str "chat") 0).withEvent (str "pm") 1).cached e q) ∧
        (∀ event' r', event' ≠ str "chat" →
          (m1.Match sampleFind r' event').map Prod.fst =
            (((m.withEvent (str "chat") 0).withEvent (str "pm") 1).Match sampleFind r'
              event').map Prod.fst)) ∧
      m1.Private = ((m.withEvent (str "chat") 0).withEvent (str "pm") 1).Private := by
  have hun : ∀ (m : Sdbot.Message GoString), (∀ e, m.Matches.refOf e = none) →
      ∀ e : GoString, e ≠ str "chat" →
      ¬ ((m.withEvent (str "chat") 0).withEvent (str "pm") 1).sharesMap e (str "chat") := by
    rintro m hnone e he ⟨a, ha, hea⟩
    have h0 : a = 0 := by
      have : some 0 = some a := ha
      exact (Option.some.inj this).symm
    rw [h0] at hea
    simp only [Message.withEvent, if_neg he] at hea
    by_cases hp : e = str "pm"
    · rw [if_pos hp] at hea
      exact absurd hea (by decide)
    · rw [if_neg hp, hnone e] at hea
      exact absurd hea (by simp)
  refine ⟨_, _, _, rfl, rfl, hun _ (fun _ => rfl), rfl, rfl, rfl, ?_, ?_⟩
  · exact (C15_match_frame sampleFind _ _ (str "Hello") (str "chat") true
      (by rfl)).2.2.2.2.2.1 (hun _ (fun _ => rfl))
  · exact (C15_match_frame sampleFind _ _ (str "Hello") (str "chat") true
      (by rfl)).2.2.2.2.2.2

/-! ## Which accesses are in range -/

theorem identityAt_total {σ : Type} (env : Env σ) (fields : List GoString) (i : Nat) (b : σ) :
    (i < fields.length ∧ fields.getD i [] ≠ [] ∧ ∃ x, identityAt env fields i b = .ok x) ∨
    (¬ (i < fields.length ∧ fields.getD i [] ≠ []) ∧
      identityAt env fields i b = .error .indexOutOfRange) := by
  unfold identityAt
  rw [List.get?_eq_getElem?, List.getD_eq_getElem?_getD]
  by_cases hlt : i < fields.length
  · rw [List.getElem?_eq_getElem hlt]
    cases hf : fields[i] with
    | nil =>
      right
      simp
    | cons c name =>
      left
      exact ⟨hlt, by simp, _, rfl⟩
  · right
    rw [List.getElem?_eq_none (by omega)]
    exact ⟨fun hc => hlt hc.1, rfl⟩

theorem parseIdentity_total {σ : Type} (env : Env σ) (command : GoString)
    (fields : List GoString) (b : σ) :
    (((ToLower env.unicodeLower command = str "c:" →
        4 ≤ fields.length ∧ fields.getD 3 [] ≠ []) ∧
      (ToLower env.unicodeLower command = str "c" ∨
        ToLower env.unicodeLower command = str "j" ∨
        ToLower env.unicodeLower command = str "l" ∨
        ToLower env.unicodeLower command = str "n" ∨
        ToLower env.unicodeLower command = str "pm" →
        3 ≤ fields.length ∧ fields.getD 2 [] ≠ [])) ∧
      ∃ x, parseIdentity env command fields b = .ok x) ∨
    (¬ ((ToLower env.unicodeLower command = str "c:" →
        4 ≤ fields.length ∧ fields.getD 3 [] ≠ []) ∧
      (ToLower env.unicodeLower command = str "c" ∨
        ToLower env.unicodeLower command = str "j" ∨
        ToLower env.unicodeLower command = str "l" ∨
        ToLower env.unicodeLower command = str "n" ∨
        ToLower env.unicodeLower command = str "pm" →
        3 ≤ fields.length ∧ fields.getD 2 [] ≠ [])) ∧
      parseIdentity env command fields b = .error .indexOutOfRange) := by
  unfold parseIdentity
  simp only []
  by_cases h1 : ToLower env.unicodeLower command = str "c:"
  · have h5 : ¬ (ToLower env.unicodeLower command = str "c" ∨
        ToLower env.unicodeLower command = str "j" ∨
        ToLower env.unicodeLower command = str "l" ∨
        ToLower env.unicodeLower command = str "n" ∨
        ToLower env.unicodeLower command = str "pm") := fun h5 => five_ne_c_colon _ h5 h1
    rw [if_pos h1]
    rcases identityAt_total env fields 3 b with ⟨hlt, hne, hx⟩ | ⟨hno, herr⟩
    · left
      exact ⟨⟨fun _ => ⟨hlt, hne⟩, fun h => absurd h h5⟩, hx⟩
    · right
      refine ⟨fun hk => hno ?_, herr⟩
      exact ⟨(hk.1 h1).1, (hk.1 h1).2⟩
  · rw [if_neg h1]
    by_cases h5 : ToLower env.unicodeLower command = str "c" ∨
        ToLower env.unicodeLower command = str "j" ∨
        ToLower env.unicodeLower command = str "l" ∨
        ToLower env.unicodeLower command = str "n" ∨
        ToLower env.unicodeLower command = str "pm"
    · rw [if_pos h5]
      rcases identityAt_total env fields 2 b with ⟨hlt, hne, hx⟩ | ⟨hno, herr⟩
      · left
        exact ⟨⟨fun h => absurd h h1, fun _ => ⟨hlt, hne⟩⟩, hx⟩
      · right
        refine ⟨fun hk => hno ?_, herr⟩
        exact ⟨(hk.2 h5).1, (hk.2 h5).2⟩
    · rw [if_neg h5]
      left
      exact ⟨⟨fun h => absurd h h1, fun h => absurd h h5⟩, _, rfl⟩

theorem parseBody_total (u : GoString → GoString) (command : GoString)
    (lines fields : List GoString) (hl : lines ≠ []) :
    ((ToLower u command = str "c:" ∨ ToLower u command = str "pm" → 4 ≤ fields.length) ∧
      ∃ x, parseBody u command lines fields = .ok x) ∨
    (¬ (ToLower u command = str "c:" ∨ ToLower u command = str "pm" → 4 ≤ fields.length) ∧
      parseBody u command lines fields = .error .sliceBoundsOutOfRange) := by
  unfold parseBody
  by_cases hc : command = []
  · rw [if_pos hc]
    left
    refine ⟨fun h => ?_, _, rfl⟩
    rw [hc, ToLower_nil] at h
    rcases h with h | h <;> exact absurd h (by decide)
  · rw [if_neg hc]
    simp only []
    by_cases hcp : ToLower u command = str "c:" ∨ ToLower u command = str "pm"
    · rw [if_pos hcp]
      by_cases hlen : 4 ≤ fields.length
      · rw [if_pos hlen]
        left
        exact ⟨fun _ => hlen, _, rfl⟩
      · rw [if_neg hlen]
        right
        exact ⟨fun hk => hlen (hk hcp), rfl⟩
    · rw [if_neg hcp]
      left
      refine ⟨fun h => absurd h hcp, ?_⟩
      by_cases hn : ToLower u command = str "none"
      · rw [if_pos hn]
        rw [List.getLast?_eq_getLast lines hl]
        exact ⟨_, rfl⟩
      · rw [if_neg hn]
        exact ⟨_, rfl⟩

theorem parseParams_eq_nil_iff (command : GoString) (fields : List GoString)
    (hc : command ≠ []) : parseParams command fields = [] ↔ fields.length < 3 := by
  unfold parseParams
  rw [if_neg hc]
  by_cases hlen : fields.length > 2
  · rw [if_pos hlen]
    constructor
    · intro e
      have := congrArg List.length e
      simp only [List.length_drop, List.length_nil] at this
      omega
    · intro h
      omega
  · rw [if_neg hlen]
    exact ⟨fun _ => by omega, fun _ => rfl⟩

theorem parseTimestamp_total (command : GoString) (fields : List GoString) :
    ((58 ∈ command → 3 ≤ fields.length) ∧
      ((∃ ts, parseTimestamp command (parseParams command fields) = .ok ts) ∨
        parseTimestamp command (parseParams command fields) = .error .fatal)) ∨
    (¬ (58 ∈ command → 3 ≤ fields.length) ∧
      parseTimestamp command (parseParams command fields) = .error .indexOutOfRange) := by
  by_cases hc : 58 ∈ command
  · have hcont : Contains command (str ":") = true := (Contains_colon_iff command).mpr hc
    have hne : command ≠ [] := by
      intro e
      rw [e] at hc
      exact absurd hc (by simp)
    unfold parseTimestamp
    rw [if_pos hcont]
    cases hp : parseParams command fields with
    | nil =>
      right
      have := (parseParams_eq_nil_iff command fields hne).mp hp
      exact ⟨fun hk => by have := hk hc; omega, rfl⟩
    | cons p rest =>
      left
      have hlen : ¬ fields.length < 3 := fun h => by
        have := (parseParams_eq_nil_iff command fields hne).mpr h
        rw [hp] at this
        exact absurd this (by simp)
      refine ⟨fun _ => by omega, ?_⟩
      simp only []
      cases Atoi p with
      | none =>
        right
        rfl
      | some v =>
        left
        exact ⟨_, rfl⟩
  · have hcont : ¬ Contains command (str ":") = true := fun h =>
      hc ((Contains_colon_iff command).mp h)
    left
    refine ⟨fun h => absurd h hc, Or.inl ⟨0, ?_⟩⟩
    unfold parseTimestamp
    rw [if_neg hcont]

/-- The precondition, block by block: the timestamp block, the identity
block, the body block. -/
theorem safetyPrecondition_iff {σ : Type} (env : Env σ) (s : GoString) :
    safetyPrecondition env s ↔
      (58 ∈ parseCommand (Split s 124) → 3 ≤ (Split s 124).length) ∧
      ((ToLower env.unicodeLower (parseCommand (Split s 124)) = str "c:" →
          4 ≤ (Split s 124).length ∧ (Split s 124).getD 3 [] ≠ []) ∧
        (ToLower env.unicodeLower (parseCommand (Split s 124)) = str "c" ∨
          ToLower env.unicodeLower (parseCommand (Split s 124)) = str "j" ∨
          ToLower env.unicodeLower (parseCommand (Split s 124)) = str "l" ∨
          ToLower env.unicodeLower (parseCommand (Split s 124)) = str "n" ∨
          ToLower env.unicodeLower (parseCommand (Split s 124)) = str "pm" →
          3 ≤ (Split s 124).length ∧ (Split s 124).getD 2 [] ≠ [])) ∧
      (ToLower env.unicodeLower (parseCommand (Split s 124)) = str "c:" ∨
        ToLower env.unicodeLower (parseCommand (Split s 124)) = str "pm" →
        4 ≤ (Split s 124).length) := by
  unfold safetyPrecondition
  constructor
  · rintro ⟨k1, k2, k3, k4⟩
    refine ⟨k1, ⟨k2, k3⟩, ?_⟩
    intro h
    rcases h with h | h
    · exact (k2 h).1
    · exact k4 h
  · rintro ⟨k1, ⟨k2, k3⟩, kb⟩
    exact ⟨k1, k2, k3, fun h => kb (Or.inr h)⟩

/-- The outcome of `parseMessage` against the precondition. -/
theorem parseMessage_outcome {σ : Type} (env : Env σ) (s : GoString) (b : σ) :
    (accessesInRange env s b = true ↔ safetyPrecondition env s) ∧
    ((∃ r b', parseMessage env s b = .ok (r, b')) ↔
      safetyPrecondition env s ∧
        parseTimestamp (parseCommand (Split s 124))
          (parseParams (parseCommand (Split s 124)) (Split s 124)) ≠ .error .fatal) ∧
    (safetyPrecondition env s → isAccessPanic (parseMessage env s b) = false) ∧
    (¬ safetyPrecondition env s → ∃ f, parseMessage env s b = .error f) := by
  rw [safetyPrecondition_iff]
  obtain ⟨room, b1, hroom⟩ := parseRoom_Split_ok env s b
  have hT := parseTimestamp_total (parseCommand (Split s 124)) (Split s 124)
  have hI := parseIdentity_total env (parseCommand (Split s 124)) (Split s 124) b
  have hI1 := parseIdentity_total env (parseCommand (Split s 124)) (Split s 124) b1
  have hB := parseBody_total env.unicodeLower (parseCommand (Split s 124)) (Split s 10)
    (Split s 124) (Split_ne_nil s 10)
  unfold accessesInRange parseMessage
  simp only []
  generalize (58 ∈ parseCommand (Split s 124) → 3 ≤ (Split s 124).length) = KT at hT ⊢
  generalize ((ToLower env.unicodeLower (parseCommand (Split s 124)) = str "c:" →
          4 ≤ (Split s 124).length ∧ (Split s 124).getD 3 [] ≠ []) ∧
        (ToLower env.unicodeLower (parseCommand (Split s 124)) = str "c" ∨
          ToLower env.unicodeLower (parseCommand (Split s 124)) = str "j" ∨
          ToLower env.unicodeLower (parseCommand (Split s 124)) = str "l" ∨
          ToLower env.unicodeLower (parseCommand (Split s 124)) = str "n" ∨
          ToLower env.unicodeLower (parseCommand (Split s 124)) = str "pm" →
          3 ≤ (Split s 124).length ∧ (Split s 124).getD 2 [] ≠ [])) = KI at hI hI1 ⊢
  generalize (ToLower env.unicodeLower (parseCommand (Split s 124)) = str "c:" ∨
        ToLower env.unicodeLower (parseCommand (Split s 124)) = str "pm" →
        4 ≤ (Split s 124).length) = KB at hB ⊢
  rcases hT with ⟨kT, hTok⟩ | ⟨nkT, hTerr⟩
  · rcases hI with ⟨kI, ⟨x, hIx⟩⟩ | ⟨nkI, hIerr⟩
    · rcases hI1 with ⟨-, ⟨⟨auth, user, b2⟩, hI1x⟩⟩ | ⟨nkI1, -⟩
      · rcases hB with ⟨kB, ⟨msg, hBx⟩⟩ | ⟨nkB, hBerr⟩
        · rcases hTok with ⟨ts, hts⟩ | hfat
          · simp [hts, hroom, hIx, hI1x, hBx, isAccessPanic, kT, kI, kB]
          · simp [hfat, hroom, hIx, hI1x, hBx, isAccessPanic, kT, kI, kB]
        · rcases hTok with ⟨ts, hts⟩ | hfat
          · simp [hts, hroom, hIx, hI1x, hBerr, isAccessPanic, kT, kI, nkB]
          · simp [hfat, hroom, hIx, hI1x, hBerr, isAccessPanic, kT, kI, nkB]
      · exact absurd kI nkI1
    · rcases hI1 with ⟨kI1, -⟩ | ⟨-, hI1err⟩
      · exact absurd kI1 nkI
      · rcases hTok with ⟨ts, hts⟩ | hfat
        · simp [hts, hroom, hIerr, hI1err, isAccessPanic, kT, nkI]
        · simp [hfat, hroom, hIerr, hI1err, isAccessPanic, kT, nkI]
  · simp [hTerr, isAccessPanic, nkT]

/-- C16: for every frame, every index and slice access of `parseMessage` is in
range exactly when the four conditions of `safetyPrecondition` hold. On the
run itself: under the precondition `parseMessage` does not panic on an
access, and it returns exactly when moreover `CheckErr` does not end the
process at the timestamp; without the precondition it never returns. A frame
without `|` satisfies the precondition and is parsed to the end; a `"pm"`
frame with exactly 3 fields, and a recognised command whose identity field is
empty, do not and fault. -/
theorem C16_safety_precondition {σ : Type} (env : Env σ) (s : GoString) (b : σ) :
    (accessesInRange env s b = true ↔ safetyPrecondition env s) ∧
    ((∃ r b', parseMessage env s b = .ok (r, b')) ↔
      safetyPrecondition env s ∧
        parseTimestamp (parseCommand (Split s 124))
          (parseParams (parseCommand (Split s 124)) (Split s 124)) ≠ .error .fatal) ∧
    (safetyPrecondition env s → isAccessPanic (parseMessage env s b) = false) ∧
    (¬ safetyPrecondition env s → ∃ f, parseMessage env s b = .error f) ∧
    (124 ∉ s → accessesInRange env s b = true ∧
      ∃ r b', parseMessage env s b = .ok (r, b')) ∧
    (ToLower env.unicodeLower (parseCommand (Split s 124)) = str "pm" →
      (Split s 124).length = 3 →
      accessesInRange env s b = false ∧ ∃ f, parseMessage env s b = .error f) ∧
    ((ToLower env.unicodeLower (parseCommand (Split s 124)) = str "c:" ∧
        (Split s 124).getD 3 [] = []) ∨
      ((ToLower env.unicodeLower (parseCommand (Split s 124)) = str "c" ∨
        ToLower env.unicodeLower (parseCommand (Split s 124)) = str "j" ∨
        ToLower env.unicodeLower (parseCommand (Split s 124)) = str "l" ∨
        ToLower env.unicodeLower (parseCommand (Split s 124)) = str "n" ∨
        ToLower env.unicodeLower (parseCommand (Split s 124)) = str "pm") ∧
        (Split s 124).getD 2 [] = []) →
      accessesInRange env s b = false ∧ ∃ f, parseMessage env s b = .error f) := by
  obtain ⟨hA, hB, hC, hD⟩ := parseMessage_outcome env s b
  have hfalse : ¬ safetyPrecondition env s →
      accessesInRange env s b = false ∧ ∃ f, parseMessage env s b = .error f := by
    intro hn
    refine ⟨?_, hD hn⟩
    cases hacc : accessesInRange env s b with
    | false => rfl
    | true => exact absurd (hA.mp hacc) hn
  refine ⟨hA, hB, hC, hD, ?_, ?_, ?_⟩
  · intro hbar
    obtain ⟨room, b1, line, -, -, hm⟩ := parseMessage_no_bar env s b hbar
    have hok : ∃ r b', parseMessage env s b = .ok (r, b') := ⟨_, _, hm⟩
    exact ⟨hA.mpr (hB.mp hok).1, hok⟩
  · intro hpm hlen
    apply hfalse
    intro hk
    have := hk.2.2.2 hpm
    omega
  · intro hempty
    apply hfalse
    intro hk
    rcases hempty with ⟨hc, he⟩ | ⟨h5, he⟩
    · exact (hk.2.1 hc).2 he
    · exact (hk.2.2.1 h5).2 he

/-- C16 at the frames `just a raw line` (in range, parsed), `|pm|%Alice` (3
fields: the slice `[4:]` is out of range), `|c|` (empty identity field) and
`|c:|abc` (`fields[3]` is out of range, but the run ends before, in
`CheckErr`). -/
theorem C16_safety_precondition_witness :
    (accessesInRange sampleEnv (str "just a raw line") [] = true ∧
      ∃ r b', parseMessage sampleEnv (str "just a raw line") [] = .ok (r, b')) ∧
    (parseMessage sampleEnv (str "|pm|%Alice") [] = .error .sliceBoundsOutOfRange ∧
      accessesInRange sampleEnv (str "|pm|%Alice") [] = false ∧
      ∃ f, parseMessage sampleEnv (str "|pm|%Alice") [] = .error f) ∧
    (parseMessage sampleEnv (str "|c|") [] = .error .indexOutOfRange ∧
      accessesInRange sampleEnv (str "|c|") [] = false ∧
      ∃ f, parseMessage sampleEnv (str "|c|") [] = .error f) ∧
    (parseMessage sampleEnv (str "|c:|abc") [] = .error .fatal ∧
      accessesInRange sampleEnv (str "|c:|abc") [] = false ∧
      ¬ safetyPrecondition sampleEnv (str "|c:|abc")) ∧
    (safetyPrecondition sampleEnv (str "|pm|%Alice|Bob|Hello there") ∧
      accessesInRange sampleEnv (str "|pm|%Alice|Bob|Hello there") [] = true) :=
  ⟨(C16_safety_precondition sampleEnv (str "just a raw line") []).2.2.2.2.1 (by decide),
   ⟨rfl, (C16_safety_precondition sampleEnv (str "|pm|%Alice") []).2.2.2.2.2.1 rfl rfl⟩,
   ⟨rfl, (C16_safety_precondition sampleEnv (str "|c|") []).2.2.2.2.2.2
      (Or.inr ⟨Or.inl rfl, rfl⟩)⟩,
   ⟨rfl, rfl, by decide⟩,
   ⟨by decide, (C16_safety_precondition sampleEnv (str "|pm|%Alice|Bob|Hello there") []).1.mpr
      (by decide)⟩⟩

/-! ## The registry calls of a parse -/

theorem parseRoom_withLog {σ : Type} (env : Env σ) (lines : List GoString) (b b1 : σ)
    (l : List Call) (room : RoomPtr) (h : parseRoom env lines b = .ok (room, b1)) :
    ∃ calls, parseRoom (withLog env) lines (b, l) = .ok (room, (b1, l ++ calls)) ∧
      (∀ name, lines.head? = some (62 :: name) → calls = [.room name]) ∧
      ((¬ ∃ name, lines.head? = some (62 :: name)) → calls = [] ∧ b1 = b) := by
  unfold parseRoom at h ⊢
  split at h
  · exact absurd h (by simp)
  · rename_i rest
    simp only [Except.ok.injEq, Prod.mk.injEq] at h
    refine ⟨[], ?_, ?_, ?_⟩
    · simp [h.1, h.2]
    · intro name e
      simp at e
    · intro _
      exact ⟨rfl, h.2.symm⟩
  · rename_i c name rest
    by_cases hc : byteToString c = str ">"
    · have hc62 : c = 62 := (byteToString_eq_gt c).mp hc
      rw [if_pos hc] at h
      simp only [Except.ok.injEq, Prod.mk.injEq] at h
      refine ⟨[.room name], ?_, ?_, ?_⟩
      · simp only [if_pos hc, withLog]
        rw [h.1, h.2]
      · intro name2 e
        simp only [List.head?_cons, Option.some.injEq, List.cons.injEq] at e
        rw [e.2]
      · intro hno
        exact absurd ⟨name, by rw [hc62]; rfl⟩ hno
    · have hc62 : c ≠ 62 := fun e => hc ((byteToString_eq_gt c).mpr e)
      rw [if_neg hc] at h
      simp only [Except.ok.injEq, Prod.mk.injEq] at h
      refine ⟨[], ?_, ?_, ?_⟩
      · simp [if_neg hc, h.1, h.2]
      · intro name2 e
        simp only [List.head?_cons, Option.some.injEq, List.cons.injEq] at e
        exact absurd e.1 hc62
      · intro _
        exact ⟨rfl, h.2.symm⟩

theorem identityAt_withLog {σ : Type} (env : Env σ) (fields : List GoString) (i : Nat)
    (b1 b2 : σ) (l : List Call) (auth : GoString) (user : UserPtr)
    (h : identityAt env fields i b1 = .ok (auth, user, b2)) :
    ∃ c name, fields.get? i = some (c :: name) ∧
      identityAt (withLog env) fields i (b1, l) = .ok (auth, user, (b2, l ++ [.user name])) := by
  unfold identityAt at h ⊢
  split at h
  · exact absurd h (by simp)
  · exact absurd h (by simp)
  · rename_i c name hget
    simp only [Except.ok.injEq, Prod.mk.injEq] at h
    refine ⟨c, name, hget, ?_⟩
    simp only [withLog]
    rw [h.1, h.2.1, h.2.2]

theorem parseIdentity_withLog {σ : Type} (env : Env σ) (command : GoString)
    (fields : List GoString) (b1 b2 : σ) (l : List Call) (auth : GoString) (user : UserPtr)
    (h : parseIdentity env command fields b1 = .ok (auth, user, b2)) :
    ∃ calls, parseIdentity (withLog env) command fields (b1, l)
        = .ok (auth, user, (b2, l ++ calls)) ∧
      (ToLower env.unicodeLower command = str "c:" →
        ∃ c name, fields.get? 3 = some (c :: name) ∧ calls = [.user name]) ∧
      (ToLower env.unicodeLower command = str "c" ∨
        ToLower env.unicodeLower command = str "j" ∨
        ToLower env.unicodeLower command = str "l" ∨
        ToLower env.unicodeLower command = str "n" ∨
        ToLower env.unicodeLower command = str "pm" →
        ∃ c name, fields.get? 2 = some (c :: name) ∧ calls = [.user name]) ∧
      (ToLower env.unicodeLower command ≠ str "c:" →
        ¬ (ToLower env.unicodeLower command = str "c" ∨
          ToLower env.unicodeLower command = str "j" ∨
          ToLower env.unicodeLower command = str "l" ∨
          ToLower env.unicodeLower command = str "n" ∨
          ToLower env.unicodeLower command = str "pm") →
        calls = [] ∧ b2 = b1) := by
  have hu : (withLog env).unicodeLower = env.unicodeLower := rfl
  unfold parseIdentity at h ⊢
  simp only [hu] at h ⊢
  by_cases h1 : ToLower env.unicodeLower command = str "c:"
  · rw [if_pos h1] at h ⊢
    obtain ⟨c, name, hget, hlog⟩ := identityAt_withLog env fields 3 b1 b2 l auth user h
    refine ⟨[.user name], hlog, fun _ => ⟨c, name, hget, rfl⟩, ?_, fun hn => absurd h1 hn⟩
    intro h5
    exact absurd h1 (five_ne_c_colon _ h5)
  · rw [if_neg h1] at h ⊢
    by_cases h5 : ToLower env.unicodeLower command = str "c" ∨
        ToLower env.unicodeLower command = str "j" ∨
        ToLower env.unicodeLower command = str "l" ∨
        ToLower env.unicodeLower command = str "n" ∨
        ToLower env.unicodeLower command = str "pm"
    · rw [if_pos h5] at h ⊢
      obtain ⟨c, name, hget, hlog⟩ := identityAt_withLog env fields 2 b1 b2 l auth user h
      exact ⟨[.user name], hlog, fun hc => absurd hc h1, fun _ => ⟨c, name, hget, rfl⟩,
        fun _ hn => absurd h5 hn⟩
    · rw [if_neg h5] at h ⊢
      simp only [Except.ok.injEq, Prod.mk.injEq] at h
      refine ⟨[], ?_, fun hc => absurd hc h1, fun hc => absurd hc h5,
        fun _ _ => ⟨rfl, h.2.2.symm⟩⟩
      simp [h.1, h.2.1, h.2.2]

theorem Split_head_gt (s : GoString) (name : GoString)
    (h : (Split s 10).head? = some (62 :: name)) : s.head? = some 62 := by
  cases s with
  | nil => simp [Split] at h
  | cons c cs =>
    unfold Split at h
    by_cases hc : c = 10
    · rw [if_pos hc] at h
      simp at h
    · rw [if_neg hc] at h
      cases hs : Split cs 10 with
      | nil => exact absurd hs (Split_ne_nil cs 10)
      | cons p ps =>
        rw [hs] at h
        simp only [consHead, List.head?_cons, Option.some.injEq, List.cons.injEq] at h
        simp [h.1]

/-- A completed parse, run again with the log: same result, same bot, and the
log holds the calls of the room block followed by those of the identity
block. -/
theorem parseMessage_withLog {σ : Type} (env : Env σ) (s : GoString) (b b' : σ) (r : Parsed)
    (h : parseMessage env s b = .ok (r, b')) :
    ∃ b1 callsR callsU,
      parseRoom env (Split s 10) b = .ok (r.Room, b1) ∧
      parseRoom (withLog env) (Split s 10) (b, []) = .ok (r.Room, (b1, callsR)) ∧
      parseIdentity env r.Command (Split s 124) b1 = .ok (r.Auth, r.User, b') ∧
      parseIdentity (withLog env) r.Command (Split s 124) (b1, callsR)
        = .ok (r.Auth, r.User, (b', callsR ++ callsU)) ∧
      parseMessage (withLog env) s (b, []) = .ok (r, (b', callsR ++ callsU)) := by
  obtain ⟨hc, hp, hts, ⟨b1, hroom, hid⟩, hbody, htarget⟩ := parseMessage_ok env s b b' r h
  obtain ⟨callsR, hroomL, -, -⟩ := parseRoom_withLog env _ b b1 [] r.Room hroom
  obtain ⟨callsU, hidL, -, -, -⟩ := parseIdentity_withLog env _ _ b1 b' callsR _ _ hid
  rw [List.nil_append] at hroomL
  refine ⟨b1, callsR, callsU, hroom, hroomL, hid, hidL, ?_⟩
  have hu : (withLog env).unicodeLower = env.unicodeLower := rfl
  cases r with
  | mk command params timestamp room user auth target message =>
    simp only [] at hc hp hts hroom hid hbody htarget hroomL hidL
    subst hc
    subst hp
    unfold parseMessage
    simp only [hts, hroomL, hidL, hu, hbody, ← htarget]

/-- C17: on a frame that `parseMessage` parses to the end, the room registry
is called exactly once, with the first line minus its `>`, when the first line
begins with `>`, and not at all otherwise; the user registry is called exactly
once, with the identity field minus its first byte, when the lower-cased
command is `"c:"`, `"c"`, `"j"`, `"l"`, `"n"` or `"pm"`, and not at all
otherwise. A frame that is neither makes no call and returns the bot as it
was; so does every frame without `|` and without a leading `>`. -/
theorem C17_registry_calls {σ : Type} (env : Env σ) (s : GoString) (b b' : σ) (r : Parsed)
    (h : parseMessage env s b = .ok (r, b')) :
    ∃ log, parseMessage (withLog env) s (b, []) = .ok (r, (b', log)) ∧
      (∀ name, (Split s 10).head? = some (62 :: name) → roomCalls log = [name]) ∧
      ((¬ ∃ name, (Split s 10).head? = some (62 :: name)) → roomCalls log = []) ∧
      (ToLower env.unicodeLower r.Command = str "c:" →
        ∃ c name, (Split s 124).get? 3 = some (c :: name) ∧ userCalls log = [name]) ∧
      (ToLower env.unicodeLower r.Command = str "c" ∨
        ToLower env.unicodeLower r.Command = str "j" ∨
        ToLower env.unicodeLower r.Command = str "l" ∨
        ToLower env.unicodeLower r.Command = str "n" ∨
        ToLower env.unicodeLower r.Command = str "pm" →
        ∃ c name, (Split s 124).get? 2 = some (c :: name) ∧ userCalls log = [name]) ∧
      (ToLower env.unicodeLower r.Command ≠ str "c:" →
        ¬ (ToLower env.unicodeLower r.Command = str "c" ∨
          ToLower env.unicodeLower r.Command = str "j" ∨
          ToLower env.unicodeLower r.Command = str "l" ∨
          ToLower env.unicodeLower r.Command = str "n" ∨
          ToLower env.unicodeLower r.Command = str "pm") →
        userCalls log = [] ∧
          ((¬ ∃ name, (Split s 10).head? = some (62 :: name)) → log = [] ∧ b' = b)) ∧
      (124 ∉ s → s.head? ≠ some 62 → log = [] ∧ b' = b) := by
  obtain ⟨hc, -, -, ⟨b1, hroom, hid⟩, -, -⟩ := parseMessage_ok env s b b' r h
  obtain ⟨callsR, hroomL, hR1, hR0⟩ := parseRoom_withLog env _ b b1 [] r.Room hroom
  obtain ⟨callsU, hidL, hU3, hU2, hU0⟩ := parseIdentity_withLog env _ _ b1 b' callsR _ _ hid
  rw [List.nil_append] at hroomL
  obtain ⟨b1', callsR', callsU', hroom', hroomL', -, hidL', hrun⟩ :=
    parseMessage_withLog env s b b' r h
  have e1 : b1' = b1 ∧ callsR' = callsR := by
    rw [hroomL] at hroomL'
    simp only [Except.ok.injEq, Prod.mk.injEq, true_and] at hroomL'
    exact ⟨hroomL'.1.symm, hroomL'.2.symm⟩
  rw [e1.1, e1.2] at hidL'
  have e2 : callsU' = callsU := by
    rw [hidL] at hidL'
    simp only [Except.ok.injEq, Prod.mk.injEq, true_and, List.append_cancel_left_eq] at hidL'
    exact hidL'.symm
  rw [e1.2, e2] at hrun
  have hroomOnly : ∀ name, roomCalls [Call.room name] = [name] := fun _ => rfl
  have huserOnly : ∀ name, userCalls [Call.user name] = [name] := fun _ => rfl
  have hneither : ToLower env.unicodeLower r.Command ≠ str "c:" →
      ¬ (ToLower env.unicodeLower r.Command = str "c" ∨
        ToLower env.unicodeLower r.Command = str "j" ∨
        ToLower env.unicodeLower r.Command = str "l" ∨
        ToLower env.unicodeLower r.Command = str "n" ∨
        ToLower env.unicodeLower r.Command = str "pm") →
      userCalls (callsR ++ callsU) = [] ∧
        ((¬ ∃ name, (Split s 10).head? = some (62 :: name)) →
          callsR ++ callsU = [] ∧ b' = b) := by
    intro n1 n5
    obtain ⟨hu, hb⟩ := hU0 n1 n5
    constructor
    · rw [hu, List.append_nil]
      by_cases hgt : ∃ name, (Split s 10).head? = some (62 :: name)
      · obtain ⟨name, e⟩ := hgt
        rw [hR1 name e]
        rfl
      · rw [(hR0 hgt).1]
        rfl
    · intro hgt
      rw [hu, (hR0 hgt).1, hb, (hR0 hgt).2]
      exact ⟨rfl, rfl⟩
  have hroomCalls : ∀ x, (callsU = [] ∨ ∃ name, callsU = [Call.user name]) →
      roomCalls (x ++ callsU) = roomCalls x := by
    intro x hx
    rcases hx with hx | ⟨name, hx⟩ <;> rw [hx] <;> simp [roomCalls]
  have hUshape : callsU = [] ∨ ∃ name, callsU = [Call.user name] := by
    by_cases h1 : ToLower env.unicodeLower r.Command = str "c:"
    · obtain ⟨c, name, -, e⟩ := hU3 h1
      exact Or.inr ⟨name, e⟩
    · by_cases h5 : ToLower env.unicodeLower r.Command = str "c" ∨
          ToLower env.unicodeLower r.Command = str "j" ∨
          ToLower env.unicodeLower r.Command = str "l" ∨
          ToLower env.unicodeLower r.Command = str "n" ∨
          ToLower env.unicodeLower r.Command = str "pm"
      · obtain ⟨c, name, -, e⟩ := hU2 h5
        exact Or.inr ⟨name, e⟩
      · exact Or.inl (hU0 h1 h5).1
  have hRshape : callsR = [] ∨ ∃ name, callsR = [Call.room name] := by
    by_cases hgt : ∃ name, (Split s 10).head? = some (62 :: name)
    · obtain ⟨name, e⟩ := hgt
      exact Or.inr ⟨name, hR1 name e⟩
    · exact Or.inl (hR0 hgt).1
  have huserCalls : ∀ y, userCalls (callsR ++ y) = userCalls y := by
    intro y
    rcases hRshape with hx | ⟨name, hx⟩ <;> rw [hx] <;> simp [userCalls]
  refine ⟨callsR ++ callsU, hrun, ?_, ?_, ?_, ?_, hneither, ?_⟩
  · intro name e
    rw [hroomCalls callsR hUshape, hR1 name e]
    rfl
  · intro hgt
    rw [hroomCalls callsR hUshape, (hR0 hgt).1]
    rfl
  · intro h1
    obtain ⟨c, name, hget, e⟩ := hU3 h1
    exact ⟨c, name, hget, by rw [huserCalls, e]; rfl⟩
  · intro h5
    obtain ⟨c, name, hget, e⟩ := hU2 h5
    exact ⟨c, name, hget, by rw [huserCalls, e]; rfl⟩
  · intro hbar hhead
    obtain ⟨room, b1, line, -, -, hm⟩ := parseMessage_no_bar env s b hbar
    rw [hm] at h
    simp only [Except.ok.injEq, Prod.mk.injEq] at h
    have hcmd : r.Command = str "none" := by rw [← h.1]
    have hl : ToLower env.unicodeLower r.Command = str "none" := by
      rw [hcmd]
      exact ToLower_none _
    have n1 : ToLower env.unicodeLower r.Command ≠ str "c:" := by
      rw [hl]
      decide
    have n5 : ¬ (ToLower env.unicodeLower r.Command = str "c" ∨
        ToLower env.unicodeLower r.Command = str "j" ∨
        ToLower env.unicodeLower r.Command = str "l" ∨
        ToLower env.unicodeLower r.Command = str "n" ∨
        ToLower env.unicodeLower r.Command = str "pm") := by
      rw [hl]
      decide
    apply (hneither n1 n5).2
    rintro ⟨name, e⟩
    exact hhead (Split_head_gt s name e)

/-- C17 at the frames `>lobby\n|c:|1680000000|%Alice|Hello everyone` (one room
call with `lobby`, then one user call with `Alice`), `|j|%Alice` (one user
call) and `just a raw line` (no call, the bot unchanged). -/
theorem C17_registry_calls_witness :
    (∃ r b' log, parseMessage sampleEnv (str ">lobby\n|c:|1680000000|%Alice|Hello everyone") []
        = .ok (r, b') ∧
      parseMessage (withLog sampleEnv) (str ">lobby\n|c:|1680000000|%Alice|Hello everyone")
        ([], []) = .ok (r, (b', log)) ∧
      log = [.room (str "lobby"), .user (str "Alice")] ∧
      roomCalls log = [str "lobby"] ∧ userCalls log = [str "Alice"]) ∧
    (∃ r b' log, parseMessage sampleEnv (str "|j|%Alice") [] = .ok (r, b') ∧
      parseMessage (withLog sampleEnv) (str "|j|%Alice") ([], []) = .ok (r, (b', log)) ∧
      roomCalls log = [] ∧ userCalls log = [str "Alice"]) ∧
    (∃ r b' log, parseMessage sampleEnv (str "just a raw line") [] = .ok (r, b') ∧
      parseMessage (withLog sampleEnv) (str "just a raw line") ([], []) = .ok (r, (b', log)) ∧
      log = [] ∧ b' = []) := by
  refine ⟨?_, ?_, ?_⟩
  · obtain ⟨log, hrun, hR, -, hU, -⟩ := C17_registry_calls sampleEnv
      (str ">lobby\n|c:|1680000000|%Alice|Hello everyone") [] _ _ (by rfl)
    obtain ⟨c, name, hget, hU⟩ := hU rfl
    have e : str "%Alice" = c :: name := Option.some.inj hget
    have hn : str "Alice" = name := List.tail_eq_of_cons_eq e
    have hrun2 : parseMessage (withLog sampleEnv)
        (str ">lobby\n|c:|1680000000|%Alice|Hello everyone") ([], [])
        = .ok (_, (_, [.room (str "lobby"), .user (str "Alice")])) := rfl
    have hlog : log = [.room (str "lobby"), .user (str "Alice")] :=
      (Prod.mk.inj (Prod.mk.inj (Except.ok.inj (hrun2.symm.trans hrun))).2).2.symm
    exact ⟨_, _, log, rfl, hrun, hlog, hR (str "lobby") rfl, by rw [hn]; exact hU⟩
  · obtain ⟨log, hrun, -, hR, -, hU, -⟩ := C17_registry_calls sampleEnv
      (str "|j|%Alice") [] _ _ (by rfl)
    obtain ⟨c, name, hget, hU⟩ := hU (Or.inr (Or.inl rfl))
    have e : str "%Alice" = c :: name := Option.some.inj hget
    have hn : str "Alice" = name := List.tail_eq_of_cons_eq e
    exact ⟨_, _, log, rfl, hrun,
      hR (fun ⟨name2, e2⟩ => absurd (Split_head_gt _ name2 e2) (by decide)),
      by rw [hn]; exact hU⟩
  · obtain ⟨log, hrun, -, -, -, -, -, hN⟩ := C17_registry_calls sampleEnv
      (str "just a raw line") [] _ _ (by rfl)
    exact ⟨_, _, log, rfl, hrun, hN (by decide) (by decide)⟩

end Sdbot
